import Mathlib

/-!
chip8cpu: a shallow embedding of `src/chip8cpu.c` / `src/chip8cpu.h` (a CHIP-8 CPU core) and
theorems about it.

Modelling conventions

* The C arrays `memory[4096]`, `gfx[64*32]`, `V[16]`, `stack[16]` are functions
  `Nat → Nat`; only the indices below the array size carry meaning.  An access whose index
  can leave the array (`memory[pc]`, `memory[I + i]`, `stack[sp]`) is checked, and an
  operation that would read or write outside the array has no result (`none`): that is
  undefined behaviour in C.
* `uint8_t` / `uint16_t` objects are natural numbers.  An assignment whose right-hand side
  can leave the range of the object is reduced with `% 256` / `% 65536`; where the C
  expression subtracts, it is computed in `Int` (C promotes the operands to `int`) and
  converted back with `u8` / `u16`.
* The function pointers of the struct are slots (`FnRef`).  What the host-installed
  functions answer is the record `Host`; the host functions observe the machine and do not
  write to it, and every call made through `draw`, `beep`, `log` (and through timer setters
  installed by the host) is recorded, oldest first, in the field `calls`.
* `chip8cpu_new` leaves the slots `draw`, `keystate` and `beep` null, for the host to fill.
  A call through one of them while it is null has no result (`none`): the C code calls a
  null function pointer there.  Theorems about `00E0`, `DXYN`, `EX9E`, `EXA1`, `FX0A` and
  about a tick that beeps therefore assume the slot they call through to be filled.  The
  slots `log`, `rand` and the four timer accessors are filled by `chip8cpu_new` itself.
* The dispatch table `opcode_handlers` is the one `chip8cpu_new` installs.
* `chip8cpu_copy` takes the indeterminate content of the block `malloc` returns as an
  argument; a field the function does not assign keeps that content.
-/

namespace Chip8

/-- Value of a C `int` expression after conversion to `uint8_t`. -/
def u8 (z : Int) : Nat := (z % 256).toNat

/-- Value of a C `int` expression after conversion to `uint16_t`. -/
def u16 (z : Int) : Nat := (z % 65536).toNat

/-- Array store `a[i] = v`. -/
def upd (a : Nat → Nat) (i v : Nat) : Nat → Nat := fun j => if j = i then v else a j

/-- Content of a function-pointer slot of `struct chip8cpu`. -/
inductive FnRef where
  | null
  | builtin
  | host (id : Nat)
  deriving DecidableEq, Repr

/-- Log levels: `enum { C8E_LOG_DEBUG, C8E_LOG_INFO, C8E_LOG_WARN, C8E_LOG_ERR, C8E_LOG_FATAL }`. -/
def C8E_LOG_DEBUG : Nat := 0

def C8E_LOG_INFO : Nat := 1

def C8E_LOG_WARN : Nat := 2

def C8E_LOG_ERR : Nat := 3

def C8E_LOG_FATAL : Nat := 4

/-- The return code `C8E_OK`, defined as 0 in `chip8cpu.h`. -/
def C8E_OK : Int := 0

/-- A call made by the core through one of the host capability slots. -/
inductive Event where
  | draw
  | beep
  | log (level : Nat)
  | delay_set (val : Nat)
  | sound_set (val : Nat)
  deriving DecidableEq, Repr

/-- Mirror of `struct chip8cpu` (without `opcode_handlers`), plus the record `calls` of the
calls made through the capability slots. -/
structure chip8cpu where
  memory : Nat → Nat
  gfx : Nat → Nat
  V : Nat → Nat
  I : Nat
  pc : Nat
  opcode : Nat
  delay_timer : Nat
  sound_timer : Nat
  stack : Nat → Nat
  sp : Nat
  draw : FnRef
  keystate : FnRef
  beep : FnRef
  log : FnRef
  delay_get : FnRef
  delay_set : FnRef
  sound_get : FnRef
  sound_set : FnRef
  rand : FnRef
  calls : List Event

/-- Answers of the functions the host has installed in the capability slots. -/
structure Host where
  keystate : Nat → Bool
  rand : Int
  delay_get : chip8cpu → Nat
  sound_get : chip8cpu → Nat

/-- The table `chip8_fontset[80]`. -/
def chip8_fontset : List Nat :=
  [0xF0, 0x90, 0x90, 0x90, 0xF0,
   0x20, 0x60, 0x20, 0x20, 0x70,
   0xF0, 0x10, 0xF0, 0x80, 0xF0,
   0xF0, 0x10, 0xF0, 0x10, 0xF0,
   0x90, 0x90, 0xF0, 0x10, 0x10,
   0xF0, 0x80, 0xF0, 0x10, 0xF0,
   0xF0, 0x80, 0xF0, 0x90, 0xF0,
   0xF0, 0x10, 0x20, 0x40, 0x40,
   0xF0, 0x90, 0xF0, 0x90, 0xF0,
   0xF0, 0x90, 0xF0, 0x10, 0xF0,
   0xF0, 0x90, 0xF0, 0x90, 0x90,
   0xE0, 0x90, 0xE0, 0x90, 0xE0,
   0xF0, 0x80, 0x80, 0x80, 0xF0,
   0xE0, 0x90, 0x90, 0x90, 0xE0,
   0xF0, 0x80, 0xF0, 0x80, 0xF0,
   0xF0, 0x80, 0xF0, 0x80, 0x80]

/-- The loop `for (i = 0; i < 80; ++i) cpu->memory[i] = chip8_fontset[i];`. -/
def load_fontset (memory : Nat → Nat) : Nat → Nat :=
  (List.range 80).foldl (fun m i => upd m i (chip8_fontset.getD i 0)) memory

/-- The state `chip8cpu_new` returns. -/
def chip8cpu_new : chip8cpu where
  pc := 0x200
  opcode := 0
  I := 0
  sp := 0
  gfx := fun _ => 0
  stack := fun _ => 0
  V := fun _ => 0
  memory := load_fontset (fun _ => 0)
  delay_timer := 0
  sound_timer := 0
  draw := FnRef.null
  keystate := FnRef.null
  beep := FnRef.null
  rand := FnRef.builtin
  log := FnRef.builtin
  delay_get := FnRef.builtin
  delay_set := FnRef.builtin
  sound_get := FnRef.builtin
  sound_set := FnRef.builtin
  calls := []

/-- Record a call through a capability slot. -/
def notify (cpu : chip8cpu) (e : Event) : chip8cpu :=
  { cpu with calls := cpu.calls ++ [e] }

/-- The call `cpu->draw(cpu)`: it has no result while the slot is null. -/
def call_draw (cpu : chip8cpu) : Option chip8cpu :=
  if cpu.draw = FnRef.null then none else some (notify cpu Event.draw)

/-- The call `cpu->beep(cpu)`: it has no result while the slot is null. -/
def call_beep (cpu : chip8cpu) : Option chip8cpu :=
  if cpu.beep = FnRef.null then none else some (notify cpu Event.beep)

/-- The call `cpu->keystate(cpu, key)`: it has no result while the slot is null, otherwise
the installed function answers. -/
def call_keystate (h : Host) (cpu : chip8cpu) (key : Nat) : Option Bool :=
  if cpu.keystate = FnRef.null then none else some (h.keystate key)

/-- The call `_chip8cpu_log_error(cpu, ...)`: `cpu->log` is called at level `C8E_LOG_ERR`. -/
def _chip8cpu_log_error (cpu : chip8cpu) : chip8cpu :=
  notify cpu (Event.log C8E_LOG_ERR)

/-- The static accessor `_chip8cpu_timer_delay_get`. -/
def _chip8cpu_timer_delay_get (cpu : chip8cpu) : Nat := cpu.delay_timer

/-- The static accessor `_chip8cpu_timer_delay_set`. -/
def _chip8cpu_timer_delay_set (cpu : chip8cpu) (val : Nat) : chip8cpu :=
  { cpu with delay_timer := val }

/-- The static accessor `_chip8cpu_timer_sound_get`. -/
def _chip8cpu_timer_sound_get (cpu : chip8cpu) : Nat := cpu.sound_timer

/-- The static accessor `_chip8cpu_timer_sound_set`. -/
def _chip8cpu_timer_sound_set (cpu : chip8cpu) (val : Nat) : chip8cpu :=
  { cpu with sound_timer := val }

/-- The call `cpu->delay_get(cpu)`. -/
def call_delay_get (h : Host) (cpu : chip8cpu) : Nat :=
  match cpu.delay_get with
  | FnRef.builtin => _chip8cpu_timer_delay_get cpu
  | _ => h.delay_get cpu % 256

/-- The call `cpu->sound_get(cpu)`. -/
def call_sound_get (h : Host) (cpu : chip8cpu) : Nat :=
  match cpu.sound_get with
  | FnRef.builtin => _chip8cpu_timer_sound_get cpu
  | _ => h.sound_get cpu % 256

/-- The call `cpu->delay_set(cpu, val)`. -/
def call_delay_set (cpu : chip8cpu) (val : Nat) : chip8cpu :=
  match cpu.delay_set with
  | FnRef.builtin => _chip8cpu_timer_delay_set cpu val
  | _ => notify cpu (Event.delay_set val)

/-- The call `cpu->sound_set(cpu, val)`. -/
def call_sound_set (cpu : chip8cpu) (val : Nat) : chip8cpu :=
  match cpu.sound_set with
  | FnRef.builtin => _chip8cpu_timer_sound_set cpu val
  | _ => notify cpu (Event.sound_set val)

/-- The register index `(cpu->opcode & 0x0F00) >> 8`. -/
def opX (opcode : Nat) : Nat := (opcode &&& 0x0F00) >>> 8

/-- The register index `(cpu->opcode & 0x00F0) >> 4`. -/
def opY (opcode : Nat) : Nat := (opcode &&& 0x00F0) >>> 4

/-- Handler of family 0: `00E0` clears the display, advances PC and calls `cpu->draw`;
`00EE` returns from a subroutine; every other word is logged as not implemented. (The
handlers return `C8E_OK`, which `chip8cpu_exec_cycle` discards.) -/
def _chip8cpu_opcode_handler_0 (cpu : chip8cpu) : Option chip8cpu :=
  if cpu.opcode = 0x00E0 then
    let cpu1 := { cpu with gfx := fun _ => 0 }
    let cpu2 := { cpu1 with pc := (cpu1.pc + 2) % 65536 }
    call_draw cpu2
  else if cpu.opcode = 0x00EE then
    let cpu1 := { cpu with sp := u16 ((cpu.sp : Int) - 1) }
    some { cpu1 with pc := (cpu1.stack (cpu1.sp &&& 0xF) + 2) % 65536 }
  else
    some (_chip8cpu_log_error cpu)

/-- Handler of family 1, `1NNN`: absolute jump. -/
def _chip8cpu_opcode_handler_1 (cpu : chip8cpu) : Option chip8cpu :=
  some { cpu with pc := cpu.opcode &&& 0xFFF }

/-- Handler of family 2, `2NNN`: call subroutine. -/
def _chip8cpu_opcode_handler_2 (cpu : chip8cpu) : Option chip8cpu :=
  if cpu.sp < 16 then
    let cpu1 := { cpu with stack := upd cpu.stack cpu.sp cpu.pc }
    let cpu2 := { cpu1 with sp := (cpu1.sp + 1) % 65536 }
    some { cpu2 with pc := cpu2.opcode &&& 0x0FFF }
  else none

/-- Handler of family 3, `3XNN`: skip if `VX == NN`. -/
def _chip8cpu_opcode_handler_3 (cpu : chip8cpu) : Option chip8cpu :=
  if cpu.V (opX cpu.opcode) = cpu.opcode &&& 0x00FF then
    some { cpu with pc := (cpu.pc + 4) % 65536 }
  else
    some { cpu with pc := (cpu.pc + 2) % 65536 }

/-- Handler of family 4, `4XNN`: skip if `VX != NN`. -/
def _chip8cpu_opcode_handler_4 (cpu : chip8cpu) : Option chip8cpu :=
  if cpu.V (opX cpu.opcode) ≠ cpu.opcode &&& 0x00FF then
    some { cpu with pc := (cpu.pc + 4) % 65536 }
  else
    some { cpu with pc := (cpu.pc + 2) % 65536 }

/-- Handler of family 5, `5XY0`: skip if `VX == VY`. -/
def _chip8cpu_opcode_handler_5 (cpu : chip8cpu) : Option chip8cpu :=
  if cpu.V (opX cpu.opcode) = cpu.V (opY cpu.opcode) then
    some { cpu with pc := (cpu.pc + 4) % 65536 }
  else
    some { cpu with pc := (cpu.pc + 2) % 65536 }

/-- Handler of family 6, `6XNN`: `VX = NN`. -/
def _chip8cpu_opcode_handler_6 (cpu : chip8cpu) : Option chip8cpu :=
  let cpu1 := { cpu with V := upd cpu.V (opX cpu.opcode) (cpu.opcode &&& 0x00FF) }
  some { cpu1 with pc := (cpu1.pc + 2) % 65536 }

/-- Handler of family 7, `7XNN`: `VX += NN`. -/
def _chip8cpu_opcode_handler_7 (cpu : chip8cpu) : Option chip8cpu :=
  let x := opX cpu.opcode
  let cpu1 := { cpu with V := upd cpu.V x ((cpu.V x + (cpu.opcode &&& 0x00FF)) % 256) }
  some { cpu1 with pc := (cpu1.pc + 2) % 65536 }

/-- Handler of family 8: register-register ALU, selected by `opcode & 0x000F`. The switch has
no default branch. -/
def _chip8cpu_opcode_handler_8 (cpu : chip8cpu) : Option chip8cpu :=
  let x := opX cpu.opcode
  let y := opY cpu.opcode
  match cpu.opcode &&& 0x000F with
  | 0x0 =>
    let cpu1 := { cpu with V := upd cpu.V x (cpu.V y) }
    some { cpu1 with pc := (cpu1.pc + 2) % 65536 }
  | 0x1 =>
    let cpu1 := { cpu with V := upd cpu.V x (cpu.V x ||| cpu.V y) }
    some { cpu1 with pc := (cpu1.pc + 2) % 65536 }
  | 0x2 =>
    let cpu1 := { cpu with V := upd cpu.V x (cpu.V x &&& cpu.V y) }
    some { cpu1 with pc := (cpu1.pc + 2) % 65536 }
  | 0x3 =>
    let cpu1 := { cpu with V := upd cpu.V x (cpu.V x ^^^ cpu.V y) }
    some { cpu1 with pc := (cpu1.pc + 2) % 65536 }
  | 0x4 =>
    let cpu1 :=
      if (cpu.V y : Int) > 0xFF - (cpu.V x : Int) then { cpu with V := upd cpu.V 0xF 1 }
      else { cpu with V := upd cpu.V 0xF 0 }
    let cpu2 := { cpu1 with V := upd cpu1.V x ((cpu1.V x + cpu1.V y) % 256) }
    some { cpu2 with pc := (cpu2.pc + 2) % 65536 }
  | 0x5 =>
    let cpu1 :=
      if cpu.V y > cpu.V x then { cpu with V := upd cpu.V 0xF 0 }
      else { cpu with V := upd cpu.V 0xF 1 }
    let cpu2 := { cpu1 with V := upd cpu1.V x (u8 ((cpu1.V x : Int) - (cpu1.V y : Int))) }
    some { cpu2 with pc := (cpu2.pc + 2) % 65536 }
  | 0x6 =>
    let cpu1 := { cpu with V := upd cpu.V 0xF (cpu.V x &&& 0x1) }
    let cpu2 := { cpu1 with V := upd cpu1.V x (cpu1.V x >>> 1) }
    some { cpu2 with pc := (cpu2.pc + 2) % 65536 }
  | 0x7 =>
    let cpu1 :=
      if cpu.V x > cpu.V y then { cpu with V := upd cpu.V 0xF 0 }
      else { cpu with V := upd cpu.V 0xF 1 }
    let cpu2 := { cpu1 with V := upd cpu1.V x (u8 ((cpu1.V y : Int) - (cpu1.V x : Int))) }
    some { cpu2 with pc := (cpu2.pc + 2) % 65536 }
  | 0xE =>
    let cpu1 := { cpu with V := upd cpu.V 0xF (cpu.V x >>> 7) }
    let cpu2 := { cpu1 with V := upd cpu1.V x ((cpu1.V x <<< 1) % 256) }
    some { cpu2 with pc := (cpu2.pc + 2) % 65536 }
  | _ => some cpu

/-- Handler of family 9, `9XY0`: skip if `VX != VY`. -/
def _chip8cpu_opcode_handler_9 (cpu : chip8cpu) : Option chip8cpu :=
  if cpu.V (opX cpu.opcode) ≠ cpu.V (opY cpu.opcode) then
    some { cpu with pc := (cpu.pc + 4) % 65536 }
  else
    some { cpu with pc := (cpu.pc + 2) % 65536 }

/-- Handler of family A, `ANNN`: `I = NNN`. -/
def _chip8cpu_opcode_handler_A (cpu : chip8cpu) : Option chip8cpu :=
  let cpu1 := { cpu with I := cpu.opcode &&& 0x0FFF }
  some { cpu1 with pc := (cpu1.pc + 2) % 65536 }

/-- Handler of family B, `BNNN`: jump to `NNN + V0`. -/
def _chip8cpu_opcode_handler_B (cpu : chip8cpu) : Option chip8cpu :=
  some { cpu with pc := ((cpu.opcode &&& 0x0FFF) + cpu.V 0) % 65536 }

/-- Handler of family C, `CXNN`: `VX = (rand() % 256) & NN`. The remainder of the C
operator `%` has the sign of the dividend (`Int.tmod`); the conjunction with the
non-negative `NN` keeps the low eight bits of its representation. -/
def _chip8cpu_opcode_handler_C (h : Host) (cpu : chip8cpu) : Option chip8cpu :=
  let x := opX cpu.opcode
  let r := u8 (Int.tmod h.rand (0xFF + 1))
  let cpu1 := { cpu with V := upd cpu.V x (r &&& (cpu.opcode &&& 0x00FF)) }
  some { cpu1 with pc := (cpu1.pc + 2) % 65536 }

/-- Body of the inner loop of the `DXYN` handler, for sprite row `y` and column `x`. -/
def draw_pixel (sprite : Nat → Nat) (xo yo y : Nat) (cpu : chip8cpu) (x : Nat) : chip8cpu :=
  let dx := (xo + x) % 64
  let dy := (yo + y) % 32
  if sprite y &&& (0x80 >>> x) ≠ 0 then
    let cpu1 :=
      if cpu.V 0xF = 0 ∧ cpu.gfx (dx + dy * 64) ≠ 0 then { cpu with V := upd cpu.V 0xF 1 }
      else cpu
    { cpu1 with gfx := upd cpu1.gfx (dx + dy * 64) (cpu1.gfx (dx + dy * 64) ^^^ 1) }
  else cpu

/-- The inner loop `for (x = 0; x < 8; x++)` of the `DXYN` handler. -/
def draw_row (sprite : Nat → Nat) (xo yo : Nat) (cpu : chip8cpu) (y : Nat) : chip8cpu :=
  (List.range 8).foldl (draw_pixel sprite xo yo y) cpu

/-- Handler of family D, `DXYN`: draw an 8-wide, `N`-high sprite read from `memory + I`
at `(VX, VY)`, then call `cpu->draw` and advance PC. -/
def _chip8cpu_opcode_handler_D (cpu : chip8cpu) : Option chip8cpu :=
  let xo := cpu.V (opX cpu.opcode)
  let yo := cpu.V (opY cpu.opcode)
  let height := cpu.opcode &&& 0x000F
  if cpu.I + height ≤ 4096 then
    let sprite : Nat → Nat := fun i => if i < height then cpu.memory (cpu.I + i) else 0
    let cpu1 := { cpu with V := upd cpu.V 0xF 0 }
    let cpu2 := (List.range height).foldl (draw_row sprite xo yo) cpu1
    match call_draw cpu2 with
    | some cpu3 => some { cpu3 with pc := (cpu3.pc + 2) % 65536 }
    | none => none
  else none

/-- Handler of family E: `EX9E` / `EXA1` skip on the answer of `cpu->keystate` for key
`VX`. -/
def _chip8cpu_opcode_handler_E (h : Host) (cpu : chip8cpu) : Option chip8cpu :=
  if cpu.opcode &&& 0x00FF = 0x9E then
    match call_keystate h cpu (cpu.V (opX cpu.opcode)) with
    | some pressed =>
      if pressed then some { cpu with pc := (cpu.pc + 4) % 65536 }
      else some { cpu with pc := (cpu.pc + 2) % 65536 }
    | none => none
  else if cpu.opcode &&& 0x00FF = 0xA1 then
    match call_keystate h cpu (cpu.V (opX cpu.opcode)) with
    | some pressed =>
      if ¬ pressed then some { cpu with pc := (cpu.pc + 4) % 65536 }
      else some { cpu with pc := (cpu.pc + 2) % 65536 }
    | none => none
  else
    some (_chip8cpu_log_error cpu)

/-- One iteration of the `FX55` loop: `cpu->memory[cpu->I + i] = cpu->V[i]`. -/
def store_reg (acc : Option chip8cpu) (i : Nat) : Option chip8cpu :=
  acc.bind fun cpu =>
    if cpu.I + i < 4096 then some { cpu with memory := upd cpu.memory (cpu.I + i) (cpu.V i) }
    else none

/-- One iteration of the `FX65` loop: `cpu->V[i] = cpu->memory[cpu->I + i]`. -/
def load_reg (acc : Option chip8cpu) (i : Nat) : Option chip8cpu :=
  acc.bind fun cpu =>
    if cpu.I + i < 4096 then some { cpu with V := upd cpu.V i (cpu.memory (cpu.I + i)) }
    else none

/-- Handler of family F, selected by `opcode & 0x00FF`.  `FX0A` scans the keys through
`cpu->keystate`. -/
def _chip8cpu_opcode_handler_F (h : Host) (cpu : chip8cpu) : Option chip8cpu :=
  let x := opX cpu.opcode
  let sel := cpu.opcode &&& 0x00FF
  if sel = 0x07 then
    let cpu1 := { cpu with V := upd cpu.V x (_chip8cpu_timer_delay_get cpu) }
    some { cpu1 with pc := (cpu1.pc + 2) % 65536 }
  else if sel = 0x0A then
    -- for (i = 0; i < 0x10; i++) if (cpu->keystate(cpu, i)) { V[x] = i; pc += 2; break; }
    -- the first iteration already calls through the slot
    if cpu.keystate = FnRef.null then none
    else
      match (List.range 0x10).find? h.keystate with
      | some i =>
        let cpu1 := { cpu with V := upd cpu.V x i }
        some { cpu1 with pc := (cpu1.pc + 2) % 65536 }
      | none => some cpu
  else if sel = 0x15 then
    let cpu1 := _chip8cpu_timer_delay_set cpu (cpu.V x)
    some { cpu1 with pc := (cpu1.pc + 2) % 65536 }
  else if sel = 0x18 then
    let cpu1 := _chip8cpu_timer_sound_set cpu (cpu.V x)
    some { cpu1 with pc := (cpu1.pc + 2) % 65536 }
  else if sel = 0x1E then
    let cpu1 := { cpu with I := (cpu.I + cpu.V x) % 65536 }
    some { cpu1 with pc := (cpu1.pc + 2) % 65536 }
  else if sel = 0x29 then
    let cpu1 := { cpu with I := (cpu.V x * 5) % 65536 }
    some { cpu1 with pc := (cpu1.pc + 2) % 65536 }
  else if sel = 0x33 then
    if cpu.I + 2 < 4096 then
      let cpu1 := { cpu with memory := upd cpu.memory cpu.I (cpu.V x / 100) }
      let cpu2 := { cpu1 with memory := upd cpu1.memory (cpu1.I + 1) ((cpu1.V x / 10) % 10) }
      let cpu3 := { cpu2 with memory := upd cpu2.memory (cpu2.I + 2) (cpu2.V x % 10) }
      some { cpu3 with pc := (cpu3.pc + 2) % 65536 }
    else none
  else if sel = 0x55 then
    ((List.range (x + 1)).foldl store_reg (some cpu)).map
      fun cpu1 => { cpu1 with pc := (cpu1.pc + 2) % 65536 }
  else if sel = 0x65 then
    ((List.range (x + 1)).foldl load_reg (some cpu)).map
      fun cpu1 => { cpu1 with pc := (cpu1.pc + 2) % 65536 }
  else
    some (_chip8cpu_log_error cpu)

/-- The big-endian 16-bit word `memory[a] << 8 | memory[a + 1]`, when both bytes lie in
`memory`. -/
def word_at (cpu : chip8cpu) (a : Nat) : Option Nat :=
  if a + 1 < 4096 then some (((cpu.memory a <<< 8) ||| cpu.memory (a + 1)) % 65536)
  else none

/-- The instruction word the next cycle fetches. -/
def fetch (cpu : chip8cpu) : Option Nat := word_at cpu cpu.pc

/-- The call `cpu->opcode_handlers[(cpu->opcode & 0xF000) >> 12](cpu)` with the table
installed by `chip8cpu_new`. -/
def dispatch (h : Host) (cpu : chip8cpu) : Option chip8cpu :=
  match (cpu.opcode &&& 0xF000) >>> 12 with
  | 0x0 => _chip8cpu_opcode_handler_0 cpu
  | 0x1 => _chip8cpu_opcode_handler_1 cpu
  | 0x2 => _chip8cpu_opcode_handler_2 cpu
  | 0x3 => _chip8cpu_opcode_handler_3 cpu
  | 0x4 => _chip8cpu_opcode_handler_4 cpu
  | 0x5 => _chip8cpu_opcode_handler_5 cpu
  | 0x6 => _chip8cpu_opcode_handler_6 cpu
  | 0x7 => _chip8cpu_opcode_handler_7 cpu
  | 0x8 => _chip8cpu_opcode_handler_8 cpu
  | 0x9 => _chip8cpu_opcode_handler_9 cpu
  | 0xA => _chip8cpu_opcode_handler_A cpu
  | 0xB => _chip8cpu_opcode_handler_B cpu
  | 0xC => _chip8cpu_opcode_handler_C h cpu
  | 0xD => _chip8cpu_opcode_handler_D cpu
  | 0xE => _chip8cpu_opcode_handler_E h cpu
  | _ => _chip8cpu_opcode_handler_F h cpu

/-- One fetch-decode-execute cycle, `chip8cpu_exec_cycle`. -/
def chip8cpu_exec_cycle (h : Host) (cpu : chip8cpu) : Option chip8cpu :=
  match fetch cpu with
  | some w => dispatch h { cpu with opcode := w }
  | none => none

/-- One iteration of the loop of `chip8cpu_load_code`: `cpu->memory[i + 512] = code[i]`. -/
def load_byte (code : List Nat) (acc : Option chip8cpu) (i : Nat) : Option chip8cpu :=
  acc.bind fun cpu =>
    match code.get? i with
    | some b =>
      if i + 512 < 4096 then some { cpu with memory := upd cpu.memory (i + 512) b } else none
    | none => none

/-- The function `chip8cpu_load_code`: the state after the copy, and the return code. -/
def chip8cpu_load_code (cpu : chip8cpu) (code : List Nat) (code_size : Int) :
    Option (chip8cpu × Int) :=
  ((List.range code_size.toNat).foldl (load_byte code) (some cpu)).map
    fun cpu1 => (cpu1, C8E_OK)

/-- The function `chip8cpu_timer_tick`.  It calls `cpu->beep` when the sound timer reads 1,
so it has no result in that case while the slot `beep` is null. -/
def chip8cpu_timer_tick (h : Host) (cpu : chip8cpu) : Option chip8cpu :=
  let delay_timer := call_delay_get h cpu
  let sound_timer := call_sound_get h cpu
  let cpu1 := if delay_timer > 0 then call_delay_set cpu (u8 ((delay_timer : Int) - 1)) else cpu
  if sound_timer > 0 then
    match (if sound_timer = 1 then call_beep cpu1 else some cpu1) with
    | some cpu2 => some (call_sound_set cpu2 (u8 ((sound_timer : Int) - 1)))
    | none => none
  else some cpu1

/-- The state after `n` successive calls of `chip8cpu_timer_tick`, when each of them has a
result. -/
def ticks (h : Host) : Nat → chip8cpu → Option chip8cpu
  | 0, cpu => some cpu
  | n + 1, cpu =>
    match chip8cpu_timer_tick h cpu with
    | some cpu1 => ticks h n cpu1
    | none => none

/-! ## Proof devices for the `DXYN` loops -/

/-- One conditional pixel flip of the `DXYN` loop body at display index `i`: when the sprite
bit `b` is set, the collision flag is raised if it is still clear and the cell is lit, and
the cell is XOR-ed with 1. (Proof device: `draw_pixel` is `px` at the index and bit of the
pixel.) -/
def px (i : Nat) (b : Bool) (cpu : chip8cpu) : chip8cpu :=
  if b = true then
    let cpu1 :=
      if cpu.V 0xF = 0 ∧ cpu.gfx i ≠ 0 then { cpu with V := upd cpu.V 0xF 1 }
      else cpu
    { cpu1 with gfx := upd cpu1.gfx i (cpu1.gfx i ^^^ 1) }
  else cpu

/-- Everything of a state except the display and register 0xF. (Proof device.) -/
def frame (cpu : chip8cpu) : chip8cpu :=
  { cpu with gfx := fun _ => 0, V := upd cpu.V 0xF 0 }

/-- Display index of the `j`-th pixel visited by the `DXYN` loops (row `j / 8`, column
`j % 8`) for the origin `(xo, yo)`. (Proof device.) -/
def cell_index (xo yo j : Nat) : Nat := (xo + j % 8) % 64 + (yo + j / 8) % 32 * 64

/-- Sprite bit of the `j`-th pixel visited by the `DXYN` loops. (Proof device.) -/
def cell_bit (sprite : Nat → Nat) (j : Nat) : Bool :=
  decide (sprite (j / 8) &&& (0x80 >>> (j % 8)) ≠ 0)

/-! ## Concrete hosts and machines, used to instantiate the theorems -/

/-- A host on which no key is pressed. -/
def host0 : Host where
  keystate := fun _ => false
  rand := 0
  delay_get := fun _ => 0
  sound_get := fun _ => 0

/-- A four-byte program image: `6A05 7AFE`. -/
def image_6A05_7AFE : List Nat := [0x6A, 0x05, 0x7A, 0xFE]

/-- The machine obtained from a fresh one by placing `6A05 7AFE` at 0x200. -/
def cpu_6A05_7AFE : chip8cpu :=
  { chip8cpu_new with
    memory := upd (upd (upd (upd chip8cpu_new.memory 0x200 0x6A) 0x201 0x05) 0x202 0x7A) 0x203 0xFE }

/-- A machine about to execute `8124` with V1 = 0xFE and V2 = 0x05. -/
def cpu_8124 : chip8cpu :=
  { chip8cpu_new with
    memory := upd (upd chip8cpu_new.memory 0x200 0x81) 0x201 0x24
    V := upd (upd chip8cpu_new.V 1 0xFE) 2 0x05 }

/-- A machine about to execute `D125` twice with V1 = 62, V2 = 30, I = 0 (the glyph of
digit 0) on an empty display: the sprite wraps around both edges.  The host has installed
its `draw` function. -/
def cpu_D125 : chip8cpu :=
  { chip8cpu_new with
    memory := upd (upd (upd (upd chip8cpu_new.memory 0x200 0xD1) 0x201 0x25) 0x202 0xD1) 0x203 0x25
    V := upd (upd chip8cpu_new.V 1 62) 2 30
    draw := FnRef.host 1 }

/-- A fresh machine whose sound timer has been set to 1, after the host has installed its
`beep` function. -/
def cpu_sound1 : chip8cpu := { chip8cpu_new with sound_timer := 1, beep := FnRef.host 3 }

/-- A machine about to execute `2300` at 0x200, with `00EE` stored at 0x300. -/
def cpu_2300_00EE : chip8cpu :=
  { chip8cpu_new with
    memory := upd (upd (upd (upd (fun _ => 0) 0x200 0x23) 0x201 0x00) 0x300 0x00) 0x301 0xEE }

/-- A machine about to execute `F30A`, after the host has installed its `keystate`
function. -/
def cpu_F30A : chip8cpu :=
  { chip8cpu_new with
    memory := upd (upd (fun _ => 0) 0x200 0xF3) 0x201 0x0A
    keystate := FnRef.host 2 }

/-- A host on which exactly the keys 5 and 9 are pressed. -/
def host_keys_5_9 : Host where
  keystate := fun i => i == 5 || i == 9
  rand := 0
  delay_get := fun _ => 0
  sound_get := fun _ => 0

/-- A machine about to execute `8125` with V1 = 3 and V2 = 5. -/
def cpu_8125 : chip8cpu :=
  { chip8cpu_new with
    memory := upd (upd (fun _ => 0) 0x200 0x81) 0x201 0x25
    V := upd (upd (fun _ => 0) 1 3) 2 5 }

/-- A machine about to execute `8127` with V1 = 3 and V2 = 5. -/
def cpu_8127 : chip8cpu :=
  { chip8cpu_new with
    memory := upd (upd (fun _ => 0) 0x200 0x81) 0x201 0x27
    V := upd (upd (fun _ => 0) 1 3) 2 5 }

/-- A machine about to execute `8126` with V1 = 0x85 and V2 = 7. -/
def cpu_8126 : chip8cpu :=
  { chip8cpu_new with
    memory := upd (upd (fun _ => 0) 0x200 0x81) 0x201 0x26
    V := upd (upd (fun _ => 0) 1 0x85) 2 7 }

/-- A machine about to execute `812E` with V1 = 0x85 and V2 = 7. -/
def cpu_812E : chip8cpu :=
  { chip8cpu_new with
    memory := upd (upd (fun _ => 0) 0x200 0x81) 0x201 0x2E
    V := upd (upd (fun _ => 0) 1 0x85) 2 7 }

/-- A machine about to execute `F329` with V3 = 0x1A. -/
def cpu_F329 : chip8cpu :=
  { chip8cpu_new with
    memory := upd (upd (fun _ => 0) 0x200 0xF3) 0x201 0x29
    V := upd (fun _ => 0) 3 0x1A }

/-- A machine about to execute `F329` with V3 = 0x0A. -/
def cpu_F329_A : chip8cpu :=
  { chip8cpu_new with
    memory := upd (upd (fun _ => 0) 0x200 0xF3) 0x201 0x29
    V := upd (fun _ => 0) 3 0x0A }

/-- A machine about to execute `F333` with V3 = 254 and I = 0x300. -/
def cpu_F333 : chip8cpu :=
  { chip8cpu_new with
    memory := upd (upd (fun _ => 0) 0x200 0xF3) 0x201 0x33
    V := upd (fun _ => 0) 3 254
    I := 0x300 }

/-- A machine about to execute `F255` at 0x200 (and holding `F265` at 0x202) with V0 = 1,
V1 = 2, V2 = 3, V3 = 4 and I = 0x300. -/
def cpu_F255 : chip8cpu :=
  { chip8cpu_new with
    memory := upd (upd (upd (upd (fun _ => 0) 0x200 0xF2) 0x201 0x55) 0x202 0xF2) 0x203 0x65
    V := upd (upd (upd (upd (fun _ => 0) 0 1) 1 2) 2 3) 3 4
    I := 0x300 }

/-- The instruction words without a defined meaning, as the specification lists them:
family 0 other than `00E0` and `00EE`; family 8 with low nibble 8, 9, A, B, C, D or F;
family E with low byte other than `9E` and `A1`; family F with low byte other than `07`,
`0A`, `15`, `18`, `1E`, `29`, `33`, `55`, `65`. (Specification-side predicate.) -/
def undefined_word (w : Nat) : Prop :=
  (w / 4096 % 16 = 0x0 ∧ w ≠ 0x00E0 ∧ w ≠ 0x00EE) ∨
  (w / 4096 % 16 = 0x8 ∧
    (w % 16 = 0x8 ∨ w % 16 = 0x9 ∨ w % 16 = 0xA ∨ w % 16 = 0xB ∨ w % 16 = 0xC ∨
      w % 16 = 0xD ∨ w % 16 = 0xF)) ∨
  (w / 4096 % 16 = 0xE ∧ w % 256 ≠ 0x9E ∧ w % 256 ≠ 0xA1) ∨
  (w / 4096 % 16 = 0xF ∧ w % 256 ≠ 0x07 ∧ w % 256 ≠ 0x0A ∧ w % 256 ≠ 0x15 ∧
    w % 256 ≠ 0x18 ∧ w % 256 ≠ 0x1E ∧ w % 256 ≠ 0x29 ∧ w % 256 ≠ 0x33 ∧
    w % 256 ≠ 0x55 ∧ w % 256 ≠ 0x65)

/-- A machine about to execute the undefined family-8 word `8128`. -/
def cpu_8128 : chip8cpu :=
  { chip8cpu_new with memory := upd (upd (fun _ => 0) 0x200 0x81) 0x201 0x28 }

/-- A machine about to execute the undefined family-E word `E100`. -/
def cpu_E100 : chip8cpu :=
  { chip8cpu_new with memory := upd (upd (fun _ => 0) 0x200 0xE1) 0x201 0x00 }

/-- The call `memcpy(dst, src, ..)` on two arrays, for a byte count that covers the first
`n` elements: these are copied, the others keep what `dst` held. -/
def memcpy_cells (dst src : Nat → Nat) (n : Nat) : Nat → Nat :=
  fun i => if i < n then src i else dst i

/-- The state `chip8cpu_copy(cpu, cpy)` builds. The function frees the block its argument
`cpy` points to, allocates a new block with `malloc` and fills it; `fresh` is the
indeterminate content of that new block. `memcpy(cpy->stack, cpu->stack, 16)` copies 16
bytes, that is the first 8 of the 16 `uint16_t` entries; the slot `rand` is not assigned
(nor is the dispatch table, which this model does not carry).
(The new block is only stored in the local `cpy` and is not handed back to the caller.) The
call record is that of the run so far. -/
def chip8cpu_copy (h : Host) (cpu : chip8cpu) (fresh : chip8cpu) : chip8cpu :=
  let cpy := fresh
  let cpy := { cpy with memory := memcpy_cells cpy.memory cpu.memory 4096 }
  let cpy := { cpy with gfx := memcpy_cells cpy.gfx cpu.gfx 2048 }
  let cpy := { cpy with V := memcpy_cells cpy.V cpu.V 16 }
  let cpy := { cpy with stack := memcpy_cells cpy.stack cpu.stack 8 }
  let cpy := { cpy with sp := cpu.sp }
  let cpy := { cpy with I := cpu.I }
  let cpy := { cpy with pc := cpu.pc }
  let cpy := { cpy with delay_timer := call_delay_get h cpu }
  let cpy := { cpy with sound_timer := call_sound_get h cpu }
  let cpy := { cpy with opcode := cpu.opcode }
  let cpy := { cpy with beep := cpu.beep }
  let cpy := { cpy with draw := cpu.draw }
  let cpy := { cpy with keystate := cpu.keystate }
  let cpy := { cpy with log := cpu.log }
  let cpy := { cpy with sound_get := cpu.sound_get }
  let cpy := { cpy with sound_set := cpu.sound_set }
  let cpy := { cpy with delay_set := cpu.delay_set }
  let cpy := { cpy with delay_get := cpu.delay_get }
  { cpy with calls := cpu.calls }

/-- A zero-filled memory block, as `malloc` may return it. -/
def zero_block : chip8cpu where
  memory := fun _ => 0
  gfx := fun _ => 0
  V := fun _ => 0
  I := 0
  pc := 0
  opcode := 0
  delay_timer := 0
  sound_timer := 0
  stack := fun _ => 0
  sp := 0
  draw := FnRef.null
  keystate := FnRef.null
  beep := FnRef.null
  log := FnRef.null
  delay_get := FnRef.null
  delay_set := FnRef.null
  sound_get := FnRef.null
  sound_set := FnRef.null
  rand := FnRef.null
  calls := []

/-- A machine nine subroutine calls deep: SP = 9 and stack entry 8 holds the return address
0x0210. -/
def cpu_depth9 : chip8cpu :=
  { chip8cpu_new with
    stack := upd (fun i => if i < 8 then 0x200 + 2 * i else 0) 8 0x210
    sp := 9
    pc := 0x300 }

/-- A machine about to execute `8F14` with VF = 200 and V1 = 100. -/
def cpu_8F14 : chip8cpu :=
  { chip8cpu_new with
    memory := upd (upd (fun _ => 0) 0x200 0x8F) 0x201 0x14
    V := upd (upd (fun _ => 0) 0xF 200) 1 100 }

/-- A machine about to execute `81F4` with V1 = 100 and VF = 200. -/
def cpu_81F4 : chip8cpu :=
  { chip8cpu_new with
    memory := upd (upd (fun _ => 0) 0x200 0x81) 0x201 0xF4
    V := upd (upd (fun _ => 0) 0xF 200) 1 100 }

/-- A machine about to execute `00EE` with SP = 0 and stack entry 15 holding 0x0300. -/
def cpu_00EE_sp0 : chip8cpu :=
  { chip8cpu_new with
    memory := upd (upd (fun _ => 0) 0x200 0x00) 0x201 0xEE
    stack := upd (fun _ => 0) 15 0x300 }

/-- The display invariant: each of the 2048 display cells is 0 or 1. -/
def display_ok (cpu : chip8cpu) : Prop := ∀ i, i < 2048 → cpu.gfx i = 0 ∨ cpu.gfx i = 1

/-- The bounds under which the instruction word `w` makes no access outside `memory` and
`stack` in state `cpu` (the fetch itself is in bounds when `fetch cpu = some w`): SP <= 15
for 2NNN, I + N <= 4096 for DXYN, I + 2 <= 4095 for FX33, I + X <= 4095 for FX55 and
FX65. -/
def in_bounds (cpu : chip8cpu) (w : Nat) : Prop :=
  (w / 4096 % 16 = 0x2 → cpu.sp ≤ 15) ∧
  (w / 4096 % 16 = 0xD → cpu.I + w % 16 ≤ 4096) ∧
  (w / 4096 % 16 = 0xF → w % 256 = 0x33 → cpu.I + 2 ≤ 4095) ∧
  (w / 4096 % 16 = 0xF → w % 256 = 0x55 ∨ w % 256 = 0x65 → cpu.I + w / 256 % 16 ≤ 4095)

/-- The capability slots the instruction word `w` calls through are filled in state `cpu`:
`draw` for 00E0 and DXYN, `keystate` for EX9E, EXA1 and FX0A. -/
def slots_installed (cpu : chip8cpu) (w : Nat) : Prop :=
  (w = 0x00E0 → cpu.draw ≠ FnRef.null) ∧
  (w / 4096 % 16 = 0xD → cpu.draw ≠ FnRef.null) ∧
  (w / 4096 % 16 = 0xE → w % 256 = 0x9E ∨ w % 256 = 0xA1 → cpu.keystate ≠ FnRef.null) ∧
  (w / 4096 % 16 = 0xF → w % 256 = 0x0A → cpu.keystate ≠ FnRef.null)

/-- The host assigns the function-pointer fields of the struct (they are public fields of
`struct chip8cpu`): the other fields are kept. -/
def assign_slots (cpu : chip8cpu) (draw keystate beep log delay_get delay_set sound_get sound_set
    rand : FnRef) : chip8cpu :=
  { cpu with
    draw := draw
    keystate := keystate
    beep := beep
    log := log
    delay_get := delay_get
    delay_set := delay_set
    sound_get := sound_get
    sound_set := sound_set
    rand := rand }

/-- The states reachable from `chip8cpu_new` by the host assigning the function-pointer
fields (how a host supplies `draw`, `keystate`, `beep` and replaces the defaults), loading
code, timer ticks and cycles, on any hosts. -/
inductive Reachable : chip8cpu → Prop where
  | new : Reachable chip8cpu_new
  | assign (cpu : chip8cpu) (draw keystate beep log delay_get delay_set sound_get sound_set
      rand : FnRef) :
      Reachable cpu →
      Reachable
        (assign_slots cpu draw keystate beep log delay_get delay_set sound_get sound_set rand)
  | load (cpu cpu' : chip8cpu) (code : List Nat) (code_size r : Int) :
      Reachable cpu → chip8cpu_load_code cpu code code_size = some (cpu', r) → Reachable cpu'
  | tick (h : Host) (cpu cpu' : chip8cpu) :
      Reachable cpu → chip8cpu_timer_tick h cpu = some cpu' → Reachable cpu'
  | exec (h : Host) (cpu cpu' : chip8cpu) :
      Reachable cpu → chip8cpu_exec_cycle h cpu = some cpu' → Reachable cpu'

/-- The two-byte program image `D005`. -/
def image_D005 : List Nat := [0xD0, 0x05]

/-- The machine a host gets from `chip8cpu_new` by filling the slots `draw`, `keystate` and
`beep` (the other slots keep the functions `chip8cpu_new` installs) and then loading the
image `D005`: its first cycle draws the glyph of digit 0 at (0, 0). -/
def cpu_D005 : chip8cpu :=
  { assign_slots chip8cpu_new (FnRef.host 1) (FnRef.host 2) (FnRef.host 3) FnRef.builtin
      FnRef.builtin FnRef.builtin FnRef.builtin FnRef.builtin FnRef.builtin with
    memory := upd (upd chip8cpu_new.memory 0x200 0xD0) 0x201 0x05 }

/-! ## Decoding lemmas -/

theorem and_FF (w : Nat) : w &&& 0x00FF = w % 256 := Nat.and_pow_two_sub_one_eq_mod w 8

theorem and_F (w : Nat) : w &&& 0x000F = w % 16 := Nat.and_pow_two_sub_one_eq_mod w 4

theorem and_FFF (w : Nat) : w &&& 0x0FFF = w % 4096 := Nat.and_pow_two_sub_one_eq_mod w 12

theorem shiftRight_and (a b k : Nat) : (a &&& b) >>> k = (a >>> k) &&& (b >>> k) := by
  apply Nat.eq_of_testBit_eq
  intro i
  simp [Nat.testBit_shiftRight, Nat.testBit_and]

theorem opX_eq (w : Nat) : opX w = w / 256 % 16 := by
  unfold opX
  rw [shiftRight_and, Nat.shiftRight_eq_div_pow]
  exact Nat.and_pow_two_sub_one_eq_mod _ 4

theorem opY_eq (w : Nat) : opY w = w / 16 % 16 := by
  unfold opY
  rw [shiftRight_and, Nat.shiftRight_eq_div_pow]
  exact Nat.and_pow_two_sub_one_eq_mod _ 4

theorem family_eq (w : Nat) : (w &&& 0xF000) >>> 12 = w / 4096 % 16 := by
  rw [shiftRight_and, Nat.shiftRight_eq_div_pow]
  exact Nat.and_pow_two_sub_one_eq_mod _ 4

theorem u8_sub (a b : Nat) : u8 ((a : Int) - (b : Int)) = (((a : Int) - (b : Int)) % 256).toNat :=
  rfl

theorem exec_of_fetch (h : Host) (cpu : chip8cpu) (w : Nat) (hf : fetch cpu = some w) :
    chip8cpu_exec_cycle h cpu = dispatch h { cpu with opcode := w } := by
  unfold chip8cpu_exec_cycle
  rw [hf]

theorem dispatch_0 (h : Host) (cpu : chip8cpu) (hf : cpu.opcode / 4096 % 16 = 0) :
    dispatch h cpu = _chip8cpu_opcode_handler_0 cpu := by
  unfold dispatch
  rw [family_eq, hf]

theorem dispatch_2 (h : Host) (cpu : chip8cpu) (hf : cpu.opcode / 4096 % 16 = 2) :
    dispatch h cpu = _chip8cpu_opcode_handler_2 cpu := by
  unfold dispatch
  rw [family_eq, hf]

theorem dispatch_6 (h : Host) (cpu : chip8cpu) (hf : cpu.opcode / 4096 % 16 = 6) :
    dispatch h cpu = _chip8cpu_opcode_handler_6 cpu := by
  unfold dispatch
  rw [family_eq, hf]

theorem dispatch_7 (h : Host) (cpu : chip8cpu) (hf : cpu.opcode / 4096 % 16 = 7) :
    dispatch h cpu = _chip8cpu_opcode_handler_7 cpu := by
  unfold dispatch
  rw [family_eq, hf]

theorem dispatch_8 (h : Host) (cpu : chip8cpu) (hf : cpu.opcode / 4096 % 16 = 8) :
    dispatch h cpu = _chip8cpu_opcode_handler_8 cpu := by
  unfold dispatch
  rw [family_eq, hf]

theorem dispatch_D (h : Host) (cpu : chip8cpu) (hf : cpu.opcode / 4096 % 16 = 13) :
    dispatch h cpu = _chip8cpu_opcode_handler_D cpu := by
  unfold dispatch
  rw [family_eq, hf]

theorem dispatch_F (h : Host) (cpu : chip8cpu) (hf : cpu.opcode / 4096 % 16 = 15) :
    dispatch h cpu = _chip8cpu_opcode_handler_F h cpu := by
  unfold dispatch
  rw [family_eq, hf]

/-! ## Construction -/

theorem foldl_upd_above (f : Nat → Nat) (m : Nat → Nat) (n i : Nat) (hi : n ≤ i) :
    (List.range n).foldl (fun m k => upd m k (f k)) m i = m i := by
  induction n with
  | zero => rfl
  | succ n ih =>
    rw [List.range_succ, List.foldl_append]
    simp only [List.foldl_cons, List.foldl_nil, upd]
    rw [if_neg (by omega), ih (by omega)]

theorem foldl_upd_below (f : Nat → Nat) (m : Nat → Nat) (n i : Nat) (hi : i < n) :
    (List.range n).foldl (fun m k => upd m k (f k)) m i = f i := by
  induction n with
  | zero => omega
  | succ n ih =>
    rw [List.range_succ, List.foldl_append]
    simp only [List.foldl_cons, List.foldl_nil, upd]
    by_cases hin : i = n
    · rw [if_pos hin, hin]
    · rw [if_neg hin, ih (by omega)]

theorem new_memory : chip8cpu_new.memory = load_fontset (fun _ => 0) := rfl

theorem new_memory_font (i : Nat) (hi : i < 80) :
    chip8cpu_new.memory i = chip8_fontset.getD i 0 := by
  rw [new_memory, load_fontset]
  exact foldl_upd_below (fun k => chip8_fontset.getD k 0) (fun _ => 0) 80 i hi

theorem new_memory_zero (i : Nat) (hi : 80 ≤ i) : chip8cpu_new.memory i = 0 := by
  rw [new_memory, load_fontset]
  exact foldl_upd_above (fun k => chip8_fontset.getD k 0) (fun _ => 0) 80 i hi

/-- Claim C1: the state returned by `chip8cpu_new` has the 80 bytes of the font table at
memory offsets 0..79 (the five rows of glyph `d` at offsets `5 * d .. 5 * d + 4`), zero in
memory bytes 80..4095, zero in all 16 registers, all 2048 display cells and all 16 stack
entries, PC = 0x200, SP = 0, I = 0 and both timers zero. -/
theorem C1_new_state :
    chip8_fontset.length = 80 ∧
    (∀ i, i < 80 → chip8cpu_new.memory i = chip8_fontset.getD i 0) ∧
    (∀ d j, d < 16 → j < 5 →
      chip8cpu_new.memory (5 * d + j) = chip8_fontset.getD (5 * d + j) 0) ∧
    (∀ i, 80 ≤ i → i < 4096 → chip8cpu_new.memory i = 0) ∧
    (∀ i, i < 16 → chip8cpu_new.V i = 0) ∧
    (∀ i, i < 2048 → chip8cpu_new.gfx i = 0) ∧
    (∀ i, i < 16 → chip8cpu_new.stack i = 0) ∧
    chip8cpu_new.pc = 0x200 ∧ chip8cpu_new.sp = 0 ∧ chip8cpu_new.I = 0 ∧
    chip8cpu_new.delay_timer = 0 ∧ chip8cpu_new.sound_timer = 0 :=
  ⟨rfl, new_memory_font, fun d j hd hj => new_memory_font _ (by omega),
    fun i hi _ => new_memory_zero i hi, fun _ _ => rfl, fun _ _ => rfl, fun _ _ => rfl,
    rfl, rfl, rfl, rfl, rfl⟩

/-! ## Program loading -/

theorem load_loop (cpu : chip8cpu) (code : List Nat) (k : Nat) (hk : k ≤ code.length)
    (hb : k + 512 ≤ 4096) :
    (List.range k).foldl (load_byte code) (some cpu) =
      some { cpu with memory := fun a =>
        if 512 ≤ a ∧ a < 512 + k then code.getD (a - 512) 0 else cpu.memory a } := by
  induction k with
  | zero =>
    simp only [List.range_zero, List.foldl_nil]
    congr 1
    cases cpu
    simp only [chip8cpu.mk.injEq, and_true, true_and]
    funext a
    rw [if_neg (by omega)]
  | succ k ih =>
    rw [List.range_succ, List.foldl_append, ih (by omega) (by omega)]
    have hget : code.get? k = some (code.getD k 0) := by
      rw [List.getD_eq_getElem?_getD, List.get?_eq_getElem?, List.getElem?_eq_getElem (by omega)]
      rfl
    simp only [List.foldl_cons, List.foldl_nil, load_byte, Option.bind, hget]
    rw [if_pos (by omega)]
    congr 2
    funext a
    unfold upd
    dsimp only
    by_cases ha : a = k + 512
    · subst ha
      rw [if_pos rfl, if_pos (by omega), Nat.add_sub_cancel]
    · rw [if_neg ha]
      by_cases hin : 512 ≤ a ∧ a < 512 + k
      · rw [if_pos hin, if_pos (by omega)]
      · rw [if_neg hin, if_neg (by omega)]

/-- Claim C2: for every state and every byte sequence `code` of length N with
N + 0x200 <= 4096, `chip8cpu_load_code` returns `C8E_OK`; afterwards `memory[0x200 + i]` is
the i-th image byte for every i < N, every memory byte below 0x200 or at 0x200 + N and above
is unchanged, and registers, I, PC, SP, stack, timers and display are unchanged. -/
theorem C2_load_code (cpu : chip8cpu) (code : List Nat) (hN : code.length + 0x200 ≤ 4096) :
    ∃ cpu', chip8cpu_load_code cpu code (code.length : Int) = some (cpu', C8E_OK) ∧
      (∀ i, i < code.length → cpu'.memory (0x200 + i) = code.getD i 0) ∧
      (∀ a, a < 0x200 ∨ 0x200 + code.length ≤ a → cpu'.memory a = cpu.memory a) ∧
      cpu'.V = cpu.V ∧ cpu'.I = cpu.I ∧ cpu'.pc = cpu.pc ∧ cpu'.sp = cpu.sp ∧
      cpu'.stack = cpu.stack ∧ cpu'.delay_timer = cpu.delay_timer ∧
      cpu'.sound_timer = cpu.sound_timer ∧ cpu'.gfx = cpu.gfx := by
  refine ⟨{ cpu with memory := fun a =>
      if 512 ≤ a ∧ a < 512 + code.length then code.getD (a - 512) 0 else cpu.memory a },
    ?_, ?_, ?_, rfl, rfl, rfl, rfl, rfl, rfl, rfl, rfl⟩
  · unfold chip8cpu_load_code
    rw [Int.toNat_ofNat, load_loop cpu code code.length (le_refl _) (by omega)]
    rfl
  · intro i hi
    show (if 512 ≤ 0x200 + i ∧ 0x200 + i < 512 + code.length then code.getD (0x200 + i - 512) 0
      else cpu.memory (0x200 + i)) = _
    rw [if_pos (by omega), Nat.add_sub_cancel_left]
  · intro a ha
    show (if 512 ≤ a ∧ a < 512 + code.length then code.getD (a - 512) 0
      else cpu.memory a) = _
    rw [if_neg (by omega)]

/-- Instance of C2: loading the image `6A05 7AFE` into a fresh machine. -/
theorem C2_load_code_witness :
    ∃ cpu', chip8cpu_load_code chip8cpu_new image_6A05_7AFE 4 = some (cpu', C8E_OK) ∧
      cpu'.memory 0x200 = 0x6A ∧ cpu'.memory 0x203 = 0xFE ∧
      cpu'.memory 0x1FF = chip8cpu_new.memory 0x1FF ∧
      cpu'.memory 0x204 = chip8cpu_new.memory 0x204 ∧ cpu'.pc = 0x200 := by
  obtain ⟨cpu', h1, h2, h3, _, _, h4, _⟩ :=
    C2_load_code chip8cpu_new image_6A05_7AFE (by decide)
  exact ⟨cpu', h1, h2 0 (by decide), h2 3 (by decide), h3 0x1FF (by decide),
    h3 0x204 (by decide), h4⟩

/-! ## Register instructions -/

/-- Claim C3: for every register index X, all bytes NN and NN2 and every state with
PC = p <= 4092 whose memory holds the word 6XNN at p and 7XNN2 at p + 2, two cycles leave
register X equal to (NN + NN2) mod 256 and PC equal to p + 4. -/
theorem C3_load_then_add (h : Host) (cpu : chip8cpu) (X NN NN' p : Nat)
    (hX : X < 16) (hNN : NN < 256) (hNN' : NN' < 256) (hpc : cpu.pc = p) (hp : p ≤ 4092)
    (h1 : word_at cpu p = some (0x6000 + 256 * X + NN))
    (h2 : word_at cpu (p + 2) = some (0x7000 + 256 * X + NN')) :
    ∃ cpu1 cpu2, chip8cpu_exec_cycle h cpu = some cpu1 ∧
      chip8cpu_exec_cycle h cpu1 = some cpu2 ∧
      cpu2.V X = (NN + NN') % 256 ∧ cpu2.pc = p + 4 := by
  have hx1 : opX (0x6000 + 256 * X + NN) = X := by rw [opX_eq]; omega
  have hn1 : (0x6000 + 256 * X + NN) &&& 0x00FF = NN := by rw [and_FF]; omega
  have hx2 : opX (0x7000 + 256 * X + NN') = X := by rw [opX_eq]; omega
  have hn2 : (0x7000 + 256 * X + NN') &&& 0x00FF = NN' := by rw [and_FF]; omega
  have hf1 : fetch cpu = some (0x6000 + 256 * X + NN) := by unfold fetch; rw [hpc]; exact h1
  have e1 : chip8cpu_exec_cycle h cpu =
      some { cpu with opcode := 0x6000 + 256 * X + NN, V := upd cpu.V X NN, pc := p + 2 } := by
    rw [exec_of_fetch h cpu _ hf1, dispatch_6 h _ (by show (0x6000 + 256 * X + NN) / 4096 % 16 = 6; omega)]
    simp only [_chip8cpu_opcode_handler_6, hx1, hn1, hpc]
    rw [Nat.mod_eq_of_lt (by omega)]
  have hf2 : fetch { cpu with opcode := 0x6000 + 256 * X + NN, V := upd cpu.V X NN, pc := p + 2 }
      = some (0x7000 + 256 * X + NN') := h2
  have e2 : chip8cpu_exec_cycle h
      { cpu with opcode := 0x6000 + 256 * X + NN, V := upd cpu.V X NN, pc := p + 2 } =
      some { cpu with opcode := 0x7000 + 256 * X + NN',
                      V := upd (upd cpu.V X NN) X ((NN + NN') % 256), pc := p + 4 } := by
    rw [exec_of_fetch h _ _ hf2,
      dispatch_7 h _ (by show (0x7000 + 256 * X + NN') / 4096 % 16 = 7; omega)]
    simp only [_chip8cpu_opcode_handler_7, hx2, hn2, upd, if_true]
    rw [Nat.mod_eq_of_lt (show p + 2 + 2 < 65536 by omega)]
  exact ⟨_, _, e1, e2, by simp [upd], rfl⟩

/-- Instance of C3: `6A05` then `7AFE` leaves VA = (5 + 254) mod 256 = 3 and PC = 0x204. -/
theorem C3_load_then_add_witness :
    ∃ cpu1 cpu2, chip8cpu_exec_cycle host0 cpu_6A05_7AFE = some cpu1 ∧
      chip8cpu_exec_cycle host0 cpu1 = some cpu2 ∧ cpu2.V 10 = 3 ∧ cpu2.pc = 0x204 :=
  C3_load_then_add host0 cpu_6A05_7AFE 10 0x05 0xFE 0x200 (by decide) (by decide) (by decide)
    rfl (by decide) (by decide) (by decide)

theorem fetch_bound {cpu : chip8cpu} {w : Nat} (hf : fetch cpu = some w) : cpu.pc + 1 < 4096 := by
  unfold fetch word_at at hf
  by_contra hc
  rw [if_neg hc] at hf
  exact Option.noConfusion hf

/-- Claim C4: for X and Y in 0..14, one cycle executing 8XY4 leaves register X equal to
(VX + VY) mod 256 and register 0xF equal to 1 if VX + VY > 255 and 0 otherwise (VX, VY the
values before the cycle); every register other than X and 0xF is unchanged and PC advances
by 2. -/
theorem C4_add_carry (h : Host) (cpu : chip8cpu) (X Y : Nat) (hX : X < 15) (hY : Y < 15)
    (hf : fetch cpu = some (0x8000 + 256 * X + 16 * Y + 4)) :
    ∃ cpu', chip8cpu_exec_cycle h cpu = some cpu' ∧
      cpu'.V X = (cpu.V X + cpu.V Y) % 256 ∧
      cpu'.V 0xF = (if cpu.V X + cpu.V Y > 255 then 1 else 0) ∧
      (∀ i, i ≠ X → i ≠ 0xF → cpu'.V i = cpu.V i) ∧
      cpu'.pc = cpu.pc + 2 := by
  have hb := fetch_bound hf
  have hs : (0x8000 + 256 * X + 16 * Y + 4) % 16 = 4 := by omega
  have hx : (0x8000 + 256 * X + 16 * Y + 4) / 256 % 16 = X := by omega
  have hy : (0x8000 + 256 * X + 16 * Y + 4) / 16 % 16 = Y := by omega
  rw [exec_of_fetch h cpu _ hf,
    dispatch_8 h _ (by show (0x8000 + 256 * X + 16 * Y + 4) / 4096 % 16 = 8; omega)]
  unfold _chip8cpu_opcode_handler_8
  simp only [and_F, opX_eq, opY_eq, hs, hx, hy]
  clear hs hx hy hf
  have hXF : ¬ X = 15 := by omega
  have hYF : ¬ Y = 15 := by omega
  have hFX : ¬ 15 = X := by omega
  refine ⟨_, rfl, ?_, ?_, ?_, ?_⟩
  · split_ifs <;> simp [upd, hXF, hYF]
  · split_ifs with hc hc' hc' <;> simp [upd, hFX] <;> omega
  · intro i hi hF
    split_ifs <;> simp [upd, hi, hF]
  · split_ifs <;> (dsimp only; omega)

/-- Instance of C4: VX = 0xFE, VY = 0x05 gives VX = 0x03 and VF = 1. -/
theorem C4_add_carry_witness :
    ∃ cpu', chip8cpu_exec_cycle host0 cpu_8124 = some cpu' ∧ cpu'.V 1 = 3 ∧ cpu'.V 0xF = 1 ∧
      (∀ i, i ≠ 1 → i ≠ 0xF → cpu'.V i = cpu_8124.V i) ∧ cpu'.pc = 0x202 :=
  C4_add_carry host0 cpu_8124 1 2 (by decide) (by decide) (by decide)

/-! ## Sprite drawing -/

theorem upd_upd (a : Nat → Nat) (i v w : Nat) : upd (upd a i v) i w = upd a i w := by
  funext j
  unfold upd
  split_ifs <;> rfl

theorem draw_pixel_eq_px (sp : Nat → Nat) (xo yo y x : Nat) (cpu : chip8cpu) :
    draw_pixel sp xo yo y cpu x =
      px ((xo + x) % 64 + (yo + y) % 32 * 64) (decide (sp y &&& (0x80 >>> x) ≠ 0)) cpu := by
  unfold draw_pixel px
  simp only [decide_eq_true_eq]

theorem px_frame (i : Nat) (b : Bool) (cpu : chip8cpu) : frame (px i b cpu) = frame cpu := by
  unfold px frame
  split_ifs <;> simp only [upd_upd]

theorem px_gfx_self (i : Nat) (b : Bool) (cpu : chip8cpu) :
    (px i b cpu).gfx i = cpu.gfx i ^^^ b.toNat := by
  unfold px
  cases b
  · simp
  · rw [if_pos rfl]
    split_ifs <;> simp [upd]

theorem px_gfx_ne (i j : Nat) (b : Bool) (cpu : chip8cpu) (hj : j ≠ i) :
    (px i b cpu).gfx j = cpu.gfx j := by
  unfold px
  split_ifs <;> simp [upd, hj]

theorem px_flag (i : Nat) (b : Bool) (cpu : chip8cpu) :
    (px i b cpu).V 0xF = if cpu.V 0xF = 0 ∧ b = true ∧ cpu.gfx i ≠ 0 then 1 else cpu.V 0xF := by
  unfold px
  cases b
  · simp
  · by_cases hc : cpu.V 0xF = 0 ∧ cpu.gfx i ≠ 0
    · simp [hc, upd]
    · rw [if_pos rfl, if_neg (by tauto)]
      simp [hc]

theorem paint_spec (ix : Nat → Nat) (bt : Nat → Bool) (st : chip8cpu) (k : Nat)
    (hinj : ∀ a b, a < k → b < k → ix a = ix b → a = b) :
    frame ((List.range k).foldl (fun s j => px (ix j) (bt j) s) st) = frame st ∧
    (∀ j, j < k → ((List.range k).foldl (fun s j => px (ix j) (bt j) s) st).gfx (ix j)
        = st.gfx (ix j) ^^^ (bt j).toNat) ∧
    (∀ i, (∀ j, j < k → ix j ≠ i) →
      ((List.range k).foldl (fun s j => px (ix j) (bt j) s) st).gfx i = st.gfx i) ∧
    (st.V 0xF ≠ 0 → ((List.range k).foldl (fun s j => px (ix j) (bt j) s) st).V 0xF = st.V 0xF) ∧
    (st.V 0xF = 0 → (∃ j, j < k ∧ bt j = true ∧ st.gfx (ix j) ≠ 0) →
      ((List.range k).foldl (fun s j => px (ix j) (bt j) s) st).V 0xF = 1) ∧
    (st.V 0xF = 0 → (∀ j, j < k → bt j = true → st.gfx (ix j) = 0) →
      ((List.range k).foldl (fun s j => px (ix j) (bt j) s) st).V 0xF = 0) := by
  induction k with
  | zero =>
    refine ⟨rfl, fun j hj => by omega, fun i _ => rfl, fun _ => rfl, ?_, fun h0 _ => h0⟩
    rintro _ ⟨j, hj, _⟩
    omega
  | succ k ih =>
    obtain ⟨f1, g1, g2, v1, v2, v3⟩ :=
      ih (fun a b ha hb => hinj a b (by omega) (by omega))
    rw [List.range_succ, List.foldl_append]
    simp only [List.foldl_cons, List.foldl_nil]
    generalize (List.range k).foldl (fun s j => px (ix j) (bt j) s) st = res at *
    have hk : res.gfx (ix k) = st.gfx (ix k) :=
      g2 (ix k) (fun j hj he => by have := hinj j k (by omega) (by omega) he; omega)
    refine ⟨(px_frame _ _ _).trans f1, ?_, ?_, ?_, ?_, ?_⟩
    · intro j hj
      by_cases hjk : j = k
      · subst hjk
        rw [px_gfx_self, hk]
      · have hne : ix j ≠ ix k := fun he => hjk (hinj j k (by omega) (by omega) he)
        rw [px_gfx_ne _ _ _ _ hne, g1 j (by omega)]
    · intro i hi
      rw [px_gfx_ne _ _ _ _ (fun he => hi k (by omega) he.symm), g2 i (fun j hj => hi j (by omega))]
    · intro hne
      rw [px_flag, v1 hne, if_neg (fun hc => hne hc.1)]
    · intro h0 hex
      rw [px_flag, hk]
      by_cases hprev : ∃ j, j < k ∧ bt j = true ∧ st.gfx (ix j) ≠ 0
      · rw [v2 h0 hprev, if_neg (by simp)]
      · obtain ⟨j, hj, hb, hg⟩ := hex
        have hjk : j = k := by
          by_contra hne
          exact hprev ⟨j, by omega, hb, hg⟩
        subst hjk
        have hr0 : res.V 0xF = 0 := v3 h0 (fun j' hj' hb' => by
          by_contra hg'
          exact hprev ⟨j', hj', hb', hg'⟩)
        rw [if_pos ⟨hr0, hb, hg⟩]
    · intro h0 hall
      have hr0 : res.V 0xF = 0 := v3 h0 (fun j hj hb => hall j (by omega) hb)
      rw [px_flag, hk, hr0, if_neg]
      rintro ⟨_, hb, hg⟩
      exact hg (hall k (by omega) hb)

theorem sprite_bit (b c : Nat) (hc : c < 8) :
    (b &&& (0x80 >>> c) ≠ 0) ↔ b.testBit (7 - c) = true := by
  have h2 : 0x80 >>> c = 2 ^ (7 - c) := by interval_cases c <;> rfl
  rw [h2, Nat.and_two_pow]
  cases b.testBit (7 - c) <;> simp

theorem draw_pixel_flat (sp : Nat → Nat) (xo yo n c : Nat) (st : chip8cpu) (hc : c < 8) :
    draw_pixel sp xo yo n st c =
      px (cell_index xo yo (8 * n + c)) (cell_bit sp (8 * n + c)) st := by
  have h1 : (8 * n + c) / 8 = n := by omega
  have h2 : (8 * n + c) % 8 = c := by omega
  rw [draw_pixel_eq_px, cell_index, cell_bit, h1, h2]

theorem draw_rows_flat (sp : Nat → Nat) (xo yo : Nat) (st : chip8cpu) (n : Nat) :
    (List.range n).foldl (draw_row sp xo yo) st =
      (List.range (8 * n)).foldl (fun s j => px (cell_index xo yo j) (cell_bit sp j) s) st := by
  induction n with
  | zero => rfl
  | succ n ih =>
    have h8 : List.range 8 = [0, 1, 2, 3, 4, 5, 6, 7] := by decide
    rw [List.range_succ, List.foldl_append, ih, Nat.mul_succ, List.range_add, List.foldl_append,
      List.foldl_map, h8]
    simp only [List.foldl_cons, List.foldl_nil, draw_row, h8]
    rw [draw_pixel_flat sp xo yo n 0 _ (by omega), draw_pixel_flat sp xo yo n 1 _ (by omega),
      draw_pixel_flat sp xo yo n 2 _ (by omega), draw_pixel_flat sp xo yo n 3 _ (by omega),
      draw_pixel_flat sp xo yo n 4 _ (by omega), draw_pixel_flat sp xo yo n 5 _ (by omega),
      draw_pixel_flat sp xo yo n 6 _ (by omega), draw_pixel_flat sp xo yo n 7 _ (by omega)]

theorem cell_index_inj (xo yo n a b : Nat) (hn : n ≤ 15) (ha : a < 8 * n) (hb : b < 8 * n)
    (he : cell_index xo yo a = cell_index xo yo b) : a = b := by
  unfold cell_index at he
  omega

theorem draw_loops_spec (sp : Nat → Nat) (xo yo N : Nat) (st res : chip8cpu) (hN : N ≤ 15)
    (h0 : st.V 0xF = 0) (hres : (List.range N).foldl (draw_row sp xo yo) st = res) :
    frame res = frame st ∧
    (∀ r c, r < N → c < 8 →
      res.gfx ((xo + c) % 64 + (yo + r) % 32 * 64) =
        st.gfx ((xo + c) % 64 + (yo + r) % 32 * 64) ^^^ ((sp r).testBit (7 - c)).toNat) ∧
    (∀ i, (∀ r c, r < N → c < 8 → (xo + c) % 64 + (yo + r) % 32 * 64 ≠ i) →
      res.gfx i = st.gfx i) ∧
    ((∃ r c, r < N ∧ c < 8 ∧ (sp r).testBit (7 - c) = true ∧
        st.gfx ((xo + c) % 64 + (yo + r) % 32 * 64) ≠ 0) → res.V 0xF = 1) ∧
    ((∀ r c, r < N → c < 8 → (sp r).testBit (7 - c) = true →
        st.gfx ((xo + c) % 64 + (yo + r) % 32 * 64) = 0) → res.V 0xF = 0) := by
  have hbit : ∀ r c, c < 8 → cell_bit sp (8 * r + c) = (sp r).testBit (7 - c) := by
    intro r c hc
    have h1 : (8 * r + c) / 8 = r := by omega
    have h2 : (8 * r + c) % 8 = c := by omega
    unfold cell_bit
    rw [h1, h2, Bool.eq_iff_iff, decide_eq_true_eq]
    exact sprite_bit _ c hc
  have hidx : ∀ r c, c < 8 →
      cell_index xo yo (8 * r + c) = (xo + c) % 64 + (yo + r) % 32 * 64 := by
    intro r c hc
    have h1 : (8 * r + c) / 8 = r := by omega
    have h2 : (8 * r + c) % 8 = c := by omega
    rw [cell_index, h1, h2]
  have hsplit : ∀ j, j < 8 * N → j / 8 < N ∧ j % 8 < 8 ∧ 8 * (j / 8) + j % 8 = j := by
    intro j hj
    omega
  rw [draw_rows_flat] at hres
  obtain ⟨f1, g1, g2, -, v2, v3⟩ :=
    paint_spec (cell_index xo yo) (cell_bit sp) st (8 * N)
      (fun a b ha hb he => cell_index_inj xo yo N a b hN ha hb he)
  rw [hres] at f1 g1 g2 v2 v3
  refine ⟨f1, ?_, ?_, ?_, ?_⟩
  · intro r c hr hc
    have := g1 (8 * r + c) (by omega)
    rwa [hidx r c hc, hbit r c hc] at this
  · intro i hi
    apply g2
    intro j hj
    obtain ⟨a, b, e⟩ := hsplit j hj
    have := hi (j / 8) (j % 8) a b
    rwa [← hidx _ _ b, e] at this
  · rintro ⟨r, c, hr, hc, hb, hg⟩
    exact v2 h0 ⟨8 * r + c, by omega, by rw [hbit r c hc]; exact hb, by rw [hidx r c hc]; exact hg⟩
  · intro hall
    apply v3 h0
    intro j hj hb
    obtain ⟨a, b, e⟩ := hsplit j hj
    have := hall (j / 8) (j % 8) a b (by rw [← hbit _ _ b, e]; exact hb)
    rwa [← hidx _ _ b, e] at this

theorem handler_D_spec (cpu : chip8cpu) (hI : cpu.I + cpu.opcode % 16 ≤ 4096)
    (hdraw : cpu.draw ≠ FnRef.null) :
    ∃ cpu', _chip8cpu_opcode_handler_D cpu = some cpu' ∧
      frame cpu' = frame { cpu with pc := (cpu.pc + 2) % 65536,
                                    calls := cpu.calls ++ [Event.draw] } ∧
      (∀ r c, r < cpu.opcode % 16 → c < 8 →
        cpu'.gfx ((cpu.V (opX cpu.opcode) + c) % 64 + (cpu.V (opY cpu.opcode) + r) % 32 * 64) =
          cpu.gfx ((cpu.V (opX cpu.opcode) + c) % 64 + (cpu.V (opY cpu.opcode) + r) % 32 * 64)
            ^^^ ((cpu.memory (cpu.I + r)).testBit (7 - c)).toNat) ∧
      (∀ i, (∀ r c, r < cpu.opcode % 16 → c < 8 →
          (cpu.V (opX cpu.opcode) + c) % 64 + (cpu.V (opY cpu.opcode) + r) % 32 * 64 ≠ i) →
        cpu'.gfx i = cpu.gfx i) ∧
      ((∃ r c, r < cpu.opcode % 16 ∧ c < 8 ∧ (cpu.memory (cpu.I + r)).testBit (7 - c) = true ∧
          cpu.gfx ((cpu.V (opX cpu.opcode) + c) % 64 + (cpu.V (opY cpu.opcode) + r) % 32 * 64) ≠ 0) →
        cpu'.V 0xF = 1) ∧
      ((∀ r c, r < cpu.opcode % 16 → c < 8 → (cpu.memory (cpu.I + r)).testBit (7 - c) = true →
          cpu.gfx ((cpu.V (opX cpu.opcode) + c) % 64 + (cpu.V (opY cpu.opcode) + r) % 32 * 64) = 0) →
        cpu'.V 0xF = 0) := by
  have hN : cpu.opcode % 16 ≤ 15 := by omega
  obtain ⟨f1, g1, g2, v2, v3⟩ :=
    draw_loops_spec (fun i => if i < cpu.opcode % 16 then cpu.memory (cpu.I + i) else 0)
      (cpu.V (opX cpu.opcode)) (cpu.V (opY cpu.opcode)) (cpu.opcode % 16)
      { cpu with V := upd cpu.V 0xF 0 } _ hN rfl rfl
  have hd := congrArg chip8cpu.draw f1
  simp only [frame] at hd
  unfold _chip8cpu_opcode_handler_D call_draw
  rw [and_F, if_pos hI]
  simp only [hd, if_neg hdraw]
  refine ⟨_, rfl, ?_, ?_, g2, ?_, ?_⟩
  · have e := congrArg
      (fun s : chip8cpu => { s with pc := (cpu.pc + 2) % 65536, calls := cpu.calls ++ [Event.draw] }) f1
    have hpc := congrArg chip8cpu.pc f1
    have hcalls := congrArg chip8cpu.calls f1
    simp only [frame] at e hpc hcalls
    simp only [frame, notify, hpc, hcalls, upd_upd] at e ⊢
    exact e
  · intro r c hr hc
    have := g1 r c hr hc
    simp only [if_pos hr] at this
    exact this
  · rintro ⟨r, c, hr, hc, hb, hg⟩
    exact v2 ⟨r, c, hr, hc, by simp only [if_pos hr]; exact hb, hg⟩
  · intro hall
    apply v3
    intro r c hr hc hb
    simp only [if_pos hr] at hb
    exact hall r c hr hc hb

theorem exec_draw (h : Host) (cpu : chip8cpu) (X Y N : Nat) (hX : X < 16) (hY : Y < 16)
    (hN : N < 16) (hI : cpu.I + N ≤ 4096) (hdraw : cpu.draw ≠ FnRef.null)
    (hf : fetch cpu = some (0xD000 + 256 * X + 16 * Y + N)) :
    ∃ cpu', chip8cpu_exec_cycle h cpu = some cpu' ∧
      frame cpu' = frame { cpu with opcode := 0xD000 + 256 * X + 16 * Y + N,
                                    pc := cpu.pc + 2,
                                    calls := cpu.calls ++ [Event.draw] } ∧
      (∀ r c, r < N → c < 8 →
        cpu'.gfx ((cpu.V X + c) % 64 + (cpu.V Y + r) % 32 * 64) =
          cpu.gfx ((cpu.V X + c) % 64 + (cpu.V Y + r) % 32 * 64)
            ^^^ ((cpu.memory (cpu.I + r)).testBit (7 - c)).toNat) ∧
      (∀ i, (∀ r c, r < N → c < 8 → (cpu.V X + c) % 64 + (cpu.V Y + r) % 32 * 64 ≠ i) →
        cpu'.gfx i = cpu.gfx i) ∧
      ((∃ r c, r < N ∧ c < 8 ∧ (cpu.memory (cpu.I + r)).testBit (7 - c) = true ∧
          cpu.gfx ((cpu.V X + c) % 64 + (cpu.V Y + r) % 32 * 64) ≠ 0) → cpu'.V 0xF = 1) ∧
      ((∀ r c, r < N → c < 8 → (cpu.memory (cpu.I + r)).testBit (7 - c) = true →
          cpu.gfx ((cpu.V X + c) % 64 + (cpu.V Y + r) % 32 * 64) = 0) → cpu'.V 0xF = 0) := by
  have hb := fetch_bound hf
  have hn : (0xD000 + 256 * X + 16 * Y + N) % 16 = N := by omega
  have hx : opX (0xD000 + 256 * X + 16 * Y + N) = X := by rw [opX_eq]; omega
  have hy : opY (0xD000 + 256 * X + 16 * Y + N) = Y := by rw [opY_eq]; omega
  have hpc : (cpu.pc + 2) % 65536 = cpu.pc + 2 := by omega
  rw [exec_of_fetch h cpu _ hf,
    dispatch_D h _ (by show (0xD000 + 256 * X + 16 * Y + N) / 4096 % 16 = 13; omega)]
  have key := handler_D_spec { cpu with opcode := 0xD000 + 256 * X + 16 * Y + N }
    (by show cpu.I + (0xD000 + 256 * X + 16 * Y + N) % 16 ≤ 4096; omega) hdraw
  simp only [hn, hx, hy, hpc] at key
  exact key

theorem frame_V (a b : chip8cpu) (hf : frame a = frame b) (i : Nat) (hi : i ≠ 0xF) :
    a.V i = b.V i := by
  have hv := congrFun (congrArg chip8cpu.V hf) i
  simpa [frame, upd, hi] using hv

theorem frame_memory (a b : chip8cpu) (hf : frame a = frame b) : a.memory = b.memory := by
  have e := congrArg chip8cpu.memory hf
  exact e

theorem frame_I (a b : chip8cpu) (hf : frame a = frame b) : a.I = b.I := by
  have e := congrArg chip8cpu.I hf
  exact e

theorem frame_pc (a b : chip8cpu) (hf : frame a = frame b) : a.pc = b.pc := by
  have e := congrArg chip8cpu.pc hf
  exact e

/-- Claim C9: for all register indices X and Y, every height N in 0..15 and every state
with I + N <= 4096 whose display cells are all 0 or 1 and whose `draw` slot the host has
filled (the handler calls through it), one cycle executing DXYN yields: for
every row r < N and column c < 8 the display cell at x = (VX + c) mod 64,
y = (VY + r) mod 32 (index x + 64 y) is its old value XOR bit (7 - c) of memory[I + r];
every display cell not of that form is unchanged; register 0xF is 1 if for some such (r, c)
the sprite bit is 1 and the old cell was 1, and 0 otherwise; PC advances by 2; when N = 0
the buffer is unchanged and register 0xF is 0. VX and VY are the values before the cycle. -/
theorem C9_draw_sprite (h : Host) (cpu : chip8cpu) (X Y N : Nat) (hX : X < 16) (hY : Y < 16)
    (hN : N < 16) (hI : cpu.I + N ≤ 4096)
    (hcells : ∀ i, i < 2048 → cpu.gfx i = 0 ∨ cpu.gfx i = 1)
    (hdraw : cpu.draw ≠ FnRef.null)
    (hf : fetch cpu = some (0xD000 + 256 * X + 16 * Y + N)) :
    ∃ cpu', chip8cpu_exec_cycle h cpu = some cpu' ∧
      (∀ r c, r < N → c < 8 →
        cpu'.gfx ((cpu.V X + c) % 64 + (cpu.V Y + r) % 32 * 64) =
          cpu.gfx ((cpu.V X + c) % 64 + (cpu.V Y + r) % 32 * 64)
            ^^^ ((cpu.memory (cpu.I + r)).testBit (7 - c)).toNat) ∧
      (∀ i, (∀ r c, r < N → c < 8 → i ≠ (cpu.V X + c) % 64 + (cpu.V Y + r) % 32 * 64) →
        cpu'.gfx i = cpu.gfx i) ∧
      ((∃ r c, r < N ∧ c < 8 ∧ (cpu.memory (cpu.I + r)).testBit (7 - c) = true ∧
          cpu.gfx ((cpu.V X + c) % 64 + (cpu.V Y + r) % 32 * 64) = 1) → cpu'.V 0xF = 1) ∧
      ((¬ ∃ r c, r < N ∧ c < 8 ∧ (cpu.memory (cpu.I + r)).testBit (7 - c) = true ∧
          cpu.gfx ((cpu.V X + c) % 64 + (cpu.V Y + r) % 32 * 64) = 1) → cpu'.V 0xF = 0) ∧
      cpu'.pc = cpu.pc + 2 ∧
      (N = 0 → cpu'.gfx = cpu.gfx ∧ cpu'.V 0xF = 0) := by
  obtain ⟨cpu', he, hfr, g1, g2, v2, v3⟩ := exec_draw h cpu X Y N hX hY hN hI hdraw hf
  have hlt : ∀ r c, (cpu.V X + c) % 64 + (cpu.V Y + r) % 32 * 64 < 2048 := by
    intro r c
    omega
  refine ⟨cpu', he, g1, fun i hi => g2 i (fun r c hr hc e => hi r c hr hc e.symm), ?_, ?_,
    frame_pc _ _ hfr, ?_⟩
  · rintro ⟨r, c, hr, hc, hb, hg⟩
    exact v2 ⟨r, c, hr, hc, hb, by rw [hg]; decide⟩
  · intro hno
    apply v3
    intro r c hr hc hb
    rcases hcells _ (hlt r c) with h0 | h1
    · exact h0
    · exact absurd ⟨r, c, hr, hc, hb, h1⟩ hno
  · intro hN0
    subst hN0
    refine ⟨funext fun i => g2 i (fun r c hr => by omega), v3 (fun r c hr => by omega)⟩

/-- Instance of C9: `D125` on an empty display with V1 = 62, V2 = 30, I = 0 and an
installed `draw` function lights the top-left pixel of the glyph at (62, 30), reports no
collision and advances PC to 0x202. -/
theorem C9_draw_sprite_witness :
    cpu_D125.draw ≠ FnRef.null ∧
    ∃ cpu', chip8cpu_exec_cycle host0 cpu_D125 = some cpu' ∧
      cpu'.gfx (62 + 30 * 64) = 1 ∧ cpu'.V 0xF = 0 ∧ cpu'.pc = 0x202 := by
  obtain ⟨cpu', he, g1, -, -, v3, hpc, -⟩ :=
    C9_draw_sprite host0 cpu_D125 1 2 5 (by decide) (by decide) (by decide) (by decide)
      (fun _ _ => Or.inl rfl) (by decide) (by decide)
  refine ⟨by decide, ?_⟩
  refine ⟨cpu', he, ?_, v3 ?_, hpc⟩
  · exact g1 0 0 (by decide) (by decide)
  · rintro ⟨r, c, -, -, -, hg⟩
    exact absurd (show (0 : Nat) = 1 from hg) (by decide)

/-- Claim C5: for X and Y other than 0xF, every height N in 0..15 and every state with
I + N <= 4096 whose `draw` slot the host has filled (the handler calls through it), two
consecutive cycles that each execute the same DXYN word (stored at PC and at PC + 2) leave
the display buffer equal, cell for cell, to the buffer before the first draw; register 0xF
after the second draw is 1 whenever the first draw turned at least one pixel on (a cell
that was 0 became non-zero); and it is 0 when the first draw turned none on, for a display
of pixels (every cell 0 or 1, the data model of the display). -/
theorem C5_draw_twice (h : Host) (cpu : chip8cpu) (X Y N p : Nat) (hX : X < 15) (hY : Y < 15)
    (hN : N < 16) (hI : cpu.I + N ≤ 4096) (hpc : cpu.pc = p)
    (h1 : word_at cpu p = some (0xD000 + 256 * X + 16 * Y + N))
    (h2 : word_at cpu (p + 2) = some (0xD000 + 256 * X + 16 * Y + N))
    (hdraw : cpu.draw ≠ FnRef.null) :
    ∃ cpu1 cpu2, chip8cpu_exec_cycle h cpu = some cpu1 ∧
      chip8cpu_exec_cycle h cpu1 = some cpu2 ∧
      cpu2.gfx = cpu.gfx ∧
      ((∃ i, i < 2048 ∧ cpu.gfx i = 0 ∧ cpu1.gfx i ≠ 0) → cpu2.V 0xF = 1) ∧
      ((∀ i, i < 2048 → cpu.gfx i = 0 ∨ cpu.gfx i = 1) →
        (¬ ∃ i, i < 2048 ∧ cpu.gfx i = 0 ∧ cpu1.gfx i ≠ 0) → cpu2.V 0xF = 0) := by
  have hf1 : fetch cpu = some (0xD000 + 256 * X + 16 * Y + N) := by
    unfold fetch
    rw [hpc]
    exact h1
  obtain ⟨cpu1, e1, f1, g1, g2, -, -⟩ :=
    exec_draw h cpu X Y N (by omega) (by omega) hN hI hdraw hf1
  have hmem : cpu1.memory = cpu.memory := by
    have e := frame_memory _ _ f1
    exact e
  have hI1 : cpu1.I = cpu.I := by
    have e := frame_I _ _ f1
    exact e
  have hd1 : cpu1.draw = cpu.draw := by
    have e := congrArg chip8cpu.draw f1
    exact e
  have hpc1 : cpu1.pc = p + 2 := by
    have e := frame_pc _ _ f1
    rw [← hpc]
    exact e
  have hVX : cpu1.V X = cpu.V X := by
    have e := frame_V _ _ f1 X (by omega)
    exact e
  have hVY : cpu1.V Y = cpu.V Y := by
    have e := frame_V _ _ f1 Y (by omega)
    exact e
  have hf2 : fetch cpu1 = some (0xD000 + 256 * X + 16 * Y + N) := by
    unfold fetch word_at
    rw [hpc1, hmem]
    exact h2
  obtain ⟨cpu2, e2, -, g1', g2', v2', v3'⟩ :=
    exec_draw h cpu1 X Y N (by omega) (by omega) hN (by rw [hI1]; exact hI)
      (by rw [hd1]; exact hdraw) hf2
  simp only [hVX, hVY, hmem, hI1] at g1' g2' v2' v3'
  have hlt : ∀ r c, (cpu.V X + c) % 64 + (cpu.V Y + r) % 32 * 64 < 2048 := by
    intro r c
    omega
  refine ⟨cpu1, cpu2, e1, e2, ?_, ?_, ?_⟩
  · funext i
    by_cases hform : ∃ r c, r < N ∧ c < 8 ∧ (cpu.V X + c) % 64 + (cpu.V Y + r) % 32 * 64 = i
    · obtain ⟨r, c, hr, hc, rfl⟩ := hform
      rw [g1' r c hr hc, g1 r c hr hc, Nat.xor_assoc, Nat.xor_self, Nat.xor_zero]
    · have hno : ∀ r c, r < N → c < 8 → (cpu.V X + c) % 64 + (cpu.V Y + r) % 32 * 64 ≠ i :=
        fun r c hr hc he => hform ⟨r, c, hr, hc, he⟩
      rw [g2' i hno, g2 i hno]
  · rintro ⟨i, -, h0, hne⟩
    by_cases hform : ∃ r c, r < N ∧ c < 8 ∧ (cpu.V X + c) % 64 + (cpu.V Y + r) % 32 * 64 = i
    · obtain ⟨r, c, hr, hc, rfl⟩ := hform
      apply v2'
      refine ⟨r, c, hr, hc, ?_, hne⟩
      by_contra hb
      rw [Bool.not_eq_true] at hb
      rw [g1 r c hr hc, hb, h0] at hne
      exact hne rfl
    · have hno : ∀ r c, r < N → c < 8 → (cpu.V X + c) % 64 + (cpu.V Y + r) % 32 * 64 ≠ i :=
        fun r c hr hc he => hform ⟨r, c, hr, hc, he⟩
      rw [g2 i hno] at hne
      exact absurd h0 hne
  · intro hcells hnone
    apply v3'
    intro r c hr hc hb
    rw [g1 r c hr hc, hb]
    rcases hcells _ (hlt r c) with h0 | h1
    · exfalso
      apply hnone
      refine ⟨_, hlt r c, h0, ?_⟩
      rw [g1 r c hr hc, hb, h0]
      decide
    · rw [h1]
      rfl

/-- Instance of C5: `D125` twice on an empty display with V1 = 62, V2 = 30, I = 0 and an
installed `draw` function: the first draw lights the cell of pixel (62, 30), the second
draw restores the empty display and reports the collision. -/
theorem C5_draw_twice_witness :
    cpu_D125.draw ≠ FnRef.null ∧
    ∃ cpu1 cpu2, chip8cpu_exec_cycle host0 cpu_D125 = some cpu1 ∧
      chip8cpu_exec_cycle host0 cpu1 = some cpu2 ∧
      cpu1.gfx (62 + 30 * 64) = 1 ∧ cpu2.gfx = cpu_D125.gfx ∧ cpu2.V 0xF = 1 := by
  obtain ⟨cpu1, cpu2, e1, e2, hg, hon, -⟩ :=
    C5_draw_twice host0 cpu_D125 1 2 5 0x200 (by decide) (by decide) (by decide) (by decide)
      rfl (by decide) (by decide) (by decide)
  obtain ⟨c, ec, -, g1, -⟩ :=
    exec_draw host0 cpu_D125 1 2 5 (by decide) (by decide) (by decide) (by decide) (by decide)
      (by decide)
  have hc : cpu1 = c := Option.some.inj (e1.symm.trans ec)
  have g : cpu1.gfx (62 + 30 * 64) = 1 := by
    rw [hc]
    exact g1 0 0 (by decide) (by decide)
  refine ⟨by decide, cpu1, cpu2, e1, e2, g, hg, hon ⟨62 + 30 * 64, by decide, rfl, ?_⟩⟩
  rw [g]
  decide

/-! ## Timers -/

theorem tick_default (h : Host) (cpu : chip8cpu)
    (hdg : cpu.delay_get = FnRef.builtin) (hds : cpu.delay_set = FnRef.builtin)
    (hsg : cpu.sound_get = FnRef.builtin) (hss : cpu.sound_set = FnRef.builtin)
    (hd : cpu.delay_timer < 256) (hs : cpu.sound_timer < 256)
    (hbeep : cpu.sound_timer = 1 → cpu.beep ≠ FnRef.null) :
    chip8cpu_timer_tick h cpu =
      some { cpu with delay_timer := cpu.delay_timer - 1, sound_timer := cpu.sound_timer - 1,
                      calls := cpu.calls ++ (if cpu.sound_timer = 1 then [Event.beep] else []) } := by
  obtain ⟨memory, gfx, V, I, pc, opcode, d, s, stack, sp, draw, keystate, beep, log,
    dg, ds, sg, ss, rand, calls⟩ := cpu
  simp only at hdg hds hsg hss hd hs hbeep
  subst hdg hds hsg hss
  have hu : ∀ t : Nat, 0 < t → t < 256 → u8 ((t : Int) - 1) = t - 1 := by
    intro t h1 h2
    unfold u8
    omega
  simp only [chip8cpu_timer_tick, call_delay_get, call_sound_get, call_delay_set, call_sound_set,
    _chip8cpu_timer_delay_get, _chip8cpu_timer_sound_get, _chip8cpu_timer_delay_set,
    _chip8cpu_timer_sound_set, call_beep, notify]
  by_cases hs1 : s = 1
  · have hb := hbeep hs1
    subst hs1
    by_cases hd0 : d > 0 <;> simp [hd0, hb, hu, hd, u8] <;> omega
  · by_cases hd0 : d > 0 <;> by_cases hs0 : s > 0 <;>
      simp [hd0, hs0, hs1, hu, hd, hs, u8] <;> omega

/-- Claim C6: for every state using the default timer accessors, with delay timer d and
sound timer s (both below 256, as `uint8_t` objects are), and every n, where the host has
filled the `beep` slot if one of the n ticks calls through it (that is, if 1 <= s <= n):
n calls of `chip8cpu_timer_tick` all return, and the state after them differs from the
initial one only in: the delay timer, which is max(d - n, 0) (truncated subtraction of
natural numbers); the sound timer, which is max(s - n, 0); and the recorded capability
calls, to which exactly one `beep` has been added if 1 <= s <= n and nothing otherwise.
Memory, registers, I, PC, SP, stack and display are those of the initial state. -/
theorem C6_timer_ticks (h : Host) (cpu : chip8cpu) (n : Nat)
    (hdg : cpu.delay_get = FnRef.builtin) (hds : cpu.delay_set = FnRef.builtin)
    (hsg : cpu.sound_get = FnRef.builtin) (hss : cpu.sound_set = FnRef.builtin)
    (hd : cpu.delay_timer < 256) (hs : cpu.sound_timer < 256)
    (hbeep : 1 ≤ cpu.sound_timer → cpu.sound_timer ≤ n → cpu.beep ≠ FnRef.null) :
    ticks h n cpu =
      some { cpu with
        delay_timer := cpu.delay_timer - n, sound_timer := cpu.sound_timer - n,
        calls := cpu.calls ++
          (if 1 ≤ cpu.sound_timer ∧ cpu.sound_timer ≤ n then [Event.beep] else []) } := by
  induction n generalizing cpu with
  | zero =>
    obtain ⟨memory, gfx, V, I, pc, opcode, d, s, stack, sp, draw, keystate, beep, log,
      dg, ds, sg, ss, rand, calls⟩ := cpu
    simp [ticks]
    omega
  | succ n ih =>
    rw [ticks, tick_default h cpu hdg hds hsg hss hd hs
      (fun h1 => hbeep (by omega) (by omega))]
    have key := ih { cpu with
        delay_timer := cpu.delay_timer - 1, sound_timer := cpu.sound_timer - 1,
        calls := cpu.calls ++ (if cpu.sound_timer = 1 then [Event.beep] else []) }
      hdg hds hsg hss (by show cpu.delay_timer - 1 < 256; omega)
      (by show cpu.sound_timer - 1 < 256; omega)
      (fun a b => hbeep (by simp only at a; omega) (by simp only at b; omega))
    dsimp only
    rw [key]
    obtain ⟨memory, gfx, V, I, pc, opcode, d, s, stack, sp, draw, keystate, beep, log,
      dg, ds, sg, ss, rand, calls⟩ := cpu
    simp only [Option.some.injEq, chip8cpu.mk.injEq, true_and, and_true, List.append_assoc]
    refine ⟨by omega, by omega, ?_⟩
    congr 1
    split_ifs <;> first | rfl | (exfalso; omega)

/-- Instance of C6: sound timer 1 and an installed `beep` function; one tick and two ticks
both return, and after each the sound timer is 0 and `beep` has been called once in
total. -/
theorem C6_timer_ticks_witness :
    cpu_sound1.beep ≠ FnRef.null ∧
    ∃ c1 c2, ticks host0 1 cpu_sound1 = some c1 ∧ ticks host0 2 cpu_sound1 = some c2 ∧
      c1.sound_timer = 0 ∧ c1.calls = [Event.beep] ∧
      c2.sound_timer = 0 ∧ c2.calls = [Event.beep] :=
  ⟨by decide, _, _,
    C6_timer_ticks host0 cpu_sound1 1 rfl rfl rfl rfl (by decide) (by decide)
      (fun _ _ => by decide),
    C6_timer_ticks host0 cpu_sound1 2 rfl rfl rfl rfl (by decide) (by decide)
      (fun _ _ => by decide),
    rfl, rfl, rfl, rfl⟩

/-! ## Subroutines -/

/-- Claim C7: for every address NNN <= 4094 and every state with SP <= 15 and
PC = p <= 4094 whose memory holds the word 2NNN at p and the word 00EE at NNN, two cycles
leave PC = p + 2 and SP equal to its original value. -/
theorem C7_call_return (h : Host) (cpu : chip8cpu) (NNN p : Nat) (hNNN : NNN ≤ 4094)
    (hsp : cpu.sp ≤ 15) (hpc : cpu.pc = p) (hp : p ≤ 4094)
    (h1 : word_at cpu p = some (0x2000 + NNN)) (h2 : word_at cpu NNN = some 0x00EE) :
    ∃ cpu1 cpu2, chip8cpu_exec_cycle h cpu = some cpu1 ∧
      chip8cpu_exec_cycle h cpu1 = some cpu2 ∧ cpu2.pc = p + 2 ∧ cpu2.sp = cpu.sp := by
  have hf1 : fetch cpu = some (0x2000 + NNN) := by unfold fetch; rw [hpc]; exact h1
  have e1 : chip8cpu_exec_cycle h cpu =
      some { cpu with opcode := 0x2000 + NNN, stack := upd cpu.stack cpu.sp p,
                      sp := cpu.sp + 1, pc := NNN } := by
    rw [exec_of_fetch h cpu _ hf1,
      dispatch_2 h _ (by show (0x2000 + NNN) / 4096 % 16 = 2; omega)]
    simp only [_chip8cpu_opcode_handler_2, and_FFF, hpc]
    rw [if_pos (by omega), Nat.mod_eq_of_lt (show cpu.sp + 1 < 65536 by omega),
      show (0x2000 + NNN) % 4096 = NNN by omega]
  generalize hc1 : ({ cpu with opcode := 0x2000 + NNN, stack := upd cpu.stack cpu.sp p,
                                sp := cpu.sp + 1, pc := NNN } : chip8cpu) = cpu1 at e1
  have hf2 : fetch cpu1 = some 0x00EE := by
    rw [← hc1]
    exact h2
  have e2 : chip8cpu_exec_cycle h cpu1 =
      some { cpu1 with opcode := 0x00EE, sp := cpu.sp, pc := p + 2 } := by
    subst hc1
    have hs : u16 (((cpu.sp + 1 : Nat) : Int) - 1) = cpu.sp := by unfold u16; omega
    have hm : cpu.sp &&& 0xF = cpu.sp := by rw [and_F]; omega
    rw [exec_of_fetch h _ _ hf2, dispatch_0 h _ (by show 0x00EE / 4096 % 16 = 0; decide)]
    simp only [_chip8cpu_opcode_handler_0, hs, hm, upd]
    simp only [if_true, Nat.reduceEqDiff, if_false]
    rw [Nat.mod_eq_of_lt (show p + 2 < 65536 by omega)]
  exact ⟨_, _, e1, e2, rfl, rfl⟩

/-- Instance of C7: `2300` at 0x200 and `00EE` at 0x300 bring PC to 0x202 and SP back to 0. -/
theorem C7_call_return_witness :
    ∃ cpu1 cpu2, chip8cpu_exec_cycle host0 cpu_2300_00EE = some cpu1 ∧
      chip8cpu_exec_cycle host0 cpu1 = some cpu2 ∧ cpu2.pc = 0x202 ∧ cpu2.sp = 0 :=
  C7_call_return host0 cpu_2300_00EE 0x300 0x200 (by decide) (by decide) rfl (by decide)
    (by decide) (by decide)

/-! ## Key wait -/

/-- Claim C8: for every register index X, every state whose `keystate` slot the host has
filled and every key-state function installed there, one cycle executing FX0A behaves as
follows. If no key 0..15 is reported pressed, the state is
unchanged apart from the latched instruction word (PC, registers, I, memory, stack, SP,
timers and display are unchanged) and the next cycle fetches the same word. Otherwise
register X is set to the least i in 0..15 whose key is pressed, PC advances by 2 and nothing
else changes. -/
theorem C8_key_wait (h : Host) (cpu : chip8cpu) (X : Nat) (hX : X < 16)
    (hkey : cpu.keystate ≠ FnRef.null)
    (hf : fetch cpu = some (0xF00A + 256 * X)) :
    ((∀ i, i < 16 → h.keystate i = false) →
      chip8cpu_exec_cycle h cpu = some { cpu with opcode := 0xF00A + 256 * X } ∧
      fetch { cpu with opcode := 0xF00A + 256 * X } = fetch cpu) ∧
    ((∃ i, i < 16 ∧ h.keystate i = true) →
      ∃ i, i < 16 ∧ h.keystate i = true ∧ (∀ j, j < i → h.keystate j = false) ∧
        chip8cpu_exec_cycle h cpu =
          some { cpu with opcode := 0xF00A + 256 * X, V := upd cpu.V X i, pc := cpu.pc + 2 }) := by
  have hb := fetch_bound hf
  have hx : opX (0xF00A + 256 * X) = X := by rw [opX_eq]; omega
  have hsel : (0xF00A + 256 * X) &&& 0x00FF = 0x0A := by rw [and_FF]; omega
  have hex : chip8cpu_exec_cycle h cpu =
      match (List.range 0x10).find? h.keystate with
      | some i => some { cpu with opcode := 0xF00A + 256 * X, V := upd cpu.V X i,
                                  pc := cpu.pc + 2 }
      | none => some { cpu with opcode := 0xF00A + 256 * X } := by
    rw [exec_of_fetch h cpu _ hf,
      dispatch_F h _ (by show (0xF00A + 256 * X) / 4096 % 16 = 15; omega)]
    simp only [_chip8cpu_opcode_handler_F, hx, hsel]
    rw [if_neg (show ¬ (0x0A = 0x07) by decide), if_pos trivial, if_neg hkey,
      Nat.mod_eq_of_lt (show cpu.pc + 2 < 65536 by omega)]
  constructor
  · intro hnone
    have hfind : (List.range 0x10).find? h.keystate = none := by
      rw [List.find?_eq_none]
      intro x hx
      rw [List.mem_range] at hx
      rw [hnone x hx]
      decide
    rw [hex, hfind]
    exact ⟨rfl, rfl⟩
  · rintro ⟨i0, hi0, hk0⟩
    cases hfind : (List.range 0x10).find? h.keystate with
    | none =>
      rw [List.find?_eq_none] at hfind
      exact absurd hk0 (hfind i0 (List.mem_range.mpr hi0))
    | some i =>
      rw [List.find?_range_eq_some] at hfind
      obtain ⟨hki, hmem, hmin⟩ := hfind
      refine ⟨i, List.mem_range.mp hmem, hki, ?_, ?_⟩
      · intro j hj
        have := hmin j hj
        simpa using this
      · rw [hex]
        have hfind' : (List.range 0x10).find? h.keystate = some i :=
          List.find?_range_eq_some.mpr ⟨hki, hmem, hmin⟩
        rw [hfind']

/-- Instance of C8: with an installed `keystate` function, `F30A` stalls on a host without
pressed keys, and stores 5 in V3 on a host where keys 5 and 9 are pressed. -/
theorem C8_key_wait_witness :
    cpu_F30A.keystate ≠ FnRef.null ∧
    (chip8cpu_exec_cycle host0 cpu_F30A = some { cpu_F30A with opcode := 0xF30A } ∧
      fetch { cpu_F30A with opcode := 0xF30A } = fetch cpu_F30A) ∧
    chip8cpu_exec_cycle host_keys_5_9 cpu_F30A =
      some { cpu_F30A with opcode := 0xF30A, V := upd cpu_F30A.V 3 5, pc := 0x202 } := by
  refine ⟨by decide,
    (C8_key_wait host0 cpu_F30A 3 (by decide) (by decide) (by decide)).1 (fun _ _ => rfl), ?_⟩
  obtain ⟨i, hi, hk, hmin, he⟩ :=
    (C8_key_wait host_keys_5_9 cpu_F30A 3 (by decide) (by decide) (by decide)).2
      ⟨9, by decide, by decide⟩
  have h5 : i ≤ 5 := by
    by_contra hlt
    exact absurd (hmin 5 (by omega)) (by decide)
  have hi5 : i = 5 := by
    interval_cases i <;> first | rfl | exact absurd hk (by decide)
  subst hi5
  exact he

/-! ## Subtraction -/

/-- Claim C10: for X and Y other than 0xF and VX, VY the values before the cycle: one cycle
executing 8XY5 leaves register X = (VX - VY) mod 256 and register 0xF = 0 if VY > VX and 1
otherwise; one cycle executing 8XY7 leaves register X = (VY - VX) mod 256 and register
0xF = 0 if VX > VY and 1 otherwise; in both cases PC advances by 2. -/
theorem C10_sub_borrow (h : Host) (cpu : chip8cpu) (X Y : Nat) (hX : X < 15) (hY : Y < 15) :
    (fetch cpu = some (0x8000 + 256 * X + 16 * Y + 5) →
      ∃ cpu', chip8cpu_exec_cycle h cpu = some cpu' ∧
        (cpu'.V X : Int) = ((cpu.V X : Int) - (cpu.V Y : Int)) % 256 ∧
        cpu'.V 0xF = (if cpu.V Y > cpu.V X then 0 else 1) ∧
        cpu'.pc = cpu.pc + 2) ∧
    (fetch cpu = some (0x8000 + 256 * X + 16 * Y + 7) →
      ∃ cpu', chip8cpu_exec_cycle h cpu = some cpu' ∧
        (cpu'.V X : Int) = ((cpu.V Y : Int) - (cpu.V X : Int)) % 256 ∧
        cpu'.V 0xF = (if cpu.V X > cpu.V Y then 0 else 1) ∧
        cpu'.pc = cpu.pc + 2) := by
  have hXF : ¬ X = 15 := by omega
  have hYF : ¬ Y = 15 := by omega
  have hFX : ¬ 15 = X := by omega
  have hu : ∀ z : Int, ((u8 z : Nat) : Int) = z % 256 := by
    intro z
    unfold u8
    omega
  constructor
  · intro hf
    have hb := fetch_bound hf
    have hs : (0x8000 + 256 * X + 16 * Y + 5) % 16 = 5 := by omega
    have hx : (0x8000 + 256 * X + 16 * Y + 5) / 256 % 16 = X := by omega
    have hy : (0x8000 + 256 * X + 16 * Y + 5) / 16 % 16 = Y := by omega
    rw [exec_of_fetch h cpu _ hf,
      dispatch_8 h _ (by show (0x8000 + 256 * X + 16 * Y + 5) / 4096 % 16 = 8; omega)]
    unfold _chip8cpu_opcode_handler_8
    simp only [and_F, opX_eq, opY_eq, hs, hx, hy]
    clear hs hx hy hf
    refine ⟨_, rfl, ?_, ?_, ?_⟩
    · split_ifs <;> simp [upd, hXF, hYF, hu]
    · split_ifs <;> simp [upd, hFX]
    · split_ifs <;> (dsimp only; omega)
  · intro hf
    have hb := fetch_bound hf
    have hs : (0x8000 + 256 * X + 16 * Y + 7) % 16 = 7 := by omega
    have hx : (0x8000 + 256 * X + 16 * Y + 7) / 256 % 16 = X := by omega
    have hy : (0x8000 + 256 * X + 16 * Y + 7) / 16 % 16 = Y := by omega
    rw [exec_of_fetch h cpu _ hf,
      dispatch_8 h _ (by show (0x8000 + 256 * X + 16 * Y + 7) / 4096 % 16 = 8; omega)]
    unfold _chip8cpu_opcode_handler_8
    simp only [and_F, opX_eq, opY_eq, hs, hx, hy]
    clear hs hx hy hf
    refine ⟨_, rfl, ?_, ?_, ?_⟩
    · split_ifs <;> simp [upd, hXF, hYF, hu]
    · split_ifs <;> simp [upd, hFX]
    · split_ifs <;> (dsimp only; omega)

/-- Instance of C10 with VX = 3, VY = 5: `8125` gives VX = 254 and VF = 0 (borrow); `8127`
gives VX = 2 and VF = 1. -/
theorem C10_sub_borrow_witness :
    (∃ cpu', chip8cpu_exec_cycle host0 cpu_8125 = some cpu' ∧
      (cpu'.V 1 : Int) = 254 ∧ cpu'.V 0xF = 0 ∧ cpu'.pc = 0x202) ∧
    (∃ cpu', chip8cpu_exec_cycle host0 cpu_8127 = some cpu' ∧
      (cpu'.V 1 : Int) = 2 ∧ cpu'.V 0xF = 1 ∧ cpu'.pc = 0x202) :=
  ⟨(C10_sub_borrow host0 cpu_8125 1 2 (by decide) (by decide)).1 (by decide),
    (C10_sub_borrow host0 cpu_8127 1 2 (by decide) (by decide)).2 (by decide)⟩

/-! ## Shifts -/

theorem and_1 (w : Nat) : w &&& 0x1 = w % 2 := Nat.and_pow_two_sub_one_eq_mod w 1

theorem fetch_with_V (cpu : chip8cpu) (V : Nat → Nat) : fetch { cpu with V := V } = fetch cpu :=
  rfl

theorem exec_shr (h : Host) (cpu : chip8cpu) (X Y : Nat) (hX : X < 16) (hY : Y < 16)
    (hf : fetch cpu = some (0x8000 + 256 * X + 16 * Y + 6)) :
    chip8cpu_exec_cycle h cpu =
      some { cpu with opcode := 0x8000 + 256 * X + 16 * Y + 6,
                      V := upd (upd cpu.V 0xF (cpu.V X % 2)) X (upd cpu.V 0xF (cpu.V X % 2) X / 2),
                      pc := cpu.pc + 2 } := by
  have hb := fetch_bound hf
  have hs : (0x8000 + 256 * X + 16 * Y + 6) % 16 = 6 := by omega
  have hx : (0x8000 + 256 * X + 16 * Y + 6) / 256 % 16 = X := by omega
  rw [exec_of_fetch h cpu _ hf,
    dispatch_8 h _ (by show (0x8000 + 256 * X + 16 * Y + 6) / 4096 % 16 = 8; omega)]
  unfold _chip8cpu_opcode_handler_8
  simp only [and_F, opX_eq, hs, hx, and_1, Nat.shiftRight_eq_div_pow, pow_one]
  rw [Nat.mod_eq_of_lt (show cpu.pc + 2 < 65536 by omega)]

theorem exec_shl (h : Host) (cpu : chip8cpu) (X Y : Nat) (hX : X < 16) (hY : Y < 16)
    (hf : fetch cpu = some (0x8000 + 256 * X + 16 * Y + 14)) :
    chip8cpu_exec_cycle h cpu =
      some { cpu with opcode := 0x8000 + 256 * X + 16 * Y + 14,
                      V := upd (upd cpu.V 0xF (cpu.V X / 128)) X
                        (upd cpu.V 0xF (cpu.V X / 128) X * 2 % 256),
                      pc := cpu.pc + 2 } := by
  have hb := fetch_bound hf
  have hs : (0x8000 + 256 * X + 16 * Y + 14) % 16 = 14 := by omega
  have hx : (0x8000 + 256 * X + 16 * Y + 14) / 256 % 16 = X := by omega
  rw [exec_of_fetch h cpu _ hf,
    dispatch_8 h _ (by show (0x8000 + 256 * X + 16 * Y + 14) / 4096 % 16 = 8; omega)]
  unfold _chip8cpu_opcode_handler_8
  simp only [and_F, opX_eq, hs, hx, Nat.shiftRight_eq_div_pow, Nat.shiftLeft_eq, pow_one]
  rw [Nat.mod_eq_of_lt (show cpu.pc + 2 < 65536 by omega)]

/-- Claim C11: for every register index X other than 0xF, every Y and every state (VX the
value of register X before the cycle): one cycle executing 8XY6 leaves
register 0xF = VX mod 2 and register X = floor(VX / 2), so 2 * VX2 + VF2 = VX; one cycle
executing 8XYE leaves register 0xF = floor(VX / 128) and register X = (2 * VX) mod 256, so
VX2 + 256 * VF2 = 2 * VX. In both cases the value of register Y is not used (when Y differs
from X, running the cycle with any other value v in register Y gives the same registers X
and 0xF), register Y is unchanged when Y differs from X and 0xF, and PC advances by 2. -/
theorem C11_shifts (h : Host) (cpu : chip8cpu) (X Y : Nat) (hX : X < 15) (hY : Y < 16) :
    (fetch cpu = some (0x8000 + 256 * X + 16 * Y + 6) →
      ∃ cpu', chip8cpu_exec_cycle h cpu = some cpu' ∧
        cpu'.V 0xF = cpu.V X % 2 ∧ cpu'.V X = cpu.V X / 2 ∧
        2 * cpu'.V X + cpu'.V 0xF = cpu.V X ∧
        (Y ≠ X → Y ≠ 0xF → cpu'.V Y = cpu.V Y) ∧
        cpu'.pc = cpu.pc + 2 ∧
        (Y ≠ X → ∀ v, ∃ cpu'', chip8cpu_exec_cycle h { cpu with V := upd cpu.V Y v } = some cpu'' ∧
          cpu''.V X = cpu'.V X ∧ cpu''.V 0xF = cpu'.V 0xF)) ∧
    (fetch cpu = some (0x8000 + 256 * X + 16 * Y + 14) →
      ∃ cpu', chip8cpu_exec_cycle h cpu = some cpu' ∧
        cpu'.V 0xF = cpu.V X / 128 ∧ cpu'.V X = (2 * cpu.V X) % 256 ∧
        cpu'.V X + 256 * cpu'.V 0xF = 2 * cpu.V X ∧
        (Y ≠ X → Y ≠ 0xF → cpu'.V Y = cpu.V Y) ∧
        cpu'.pc = cpu.pc + 2 ∧
        (Y ≠ X → ∀ v, ∃ cpu'', chip8cpu_exec_cycle h { cpu with V := upd cpu.V Y v } = some cpu'' ∧
          cpu''.V X = cpu'.V X ∧ cpu''.V 0xF = cpu'.V 0xF)) := by
  have hXF : ¬ X = 15 := by omega
  have hFX : ¬ 15 = X := by omega
  constructor
  · intro hf
    refine ⟨_, exec_shr h cpu X Y (by omega) hY hf, ?_, ?_, ?_, ?_, rfl, ?_⟩
    · simp [upd, hFX]
    · simp [upd, hXF]
    · simp only [upd, if_neg hXF, if_neg hFX, if_true]
      omega
    · intro h1 h2
      simp [upd, h1, h2]
    · intro hYX v
      refine ⟨_, exec_shr h { cpu with V := upd cpu.V Y v } X Y (by omega) hY hf, ?_, ?_⟩
      · simp [upd, hXF, Ne.symm hYX]
      · simp [upd, hFX, Ne.symm hYX]
  · intro hf
    refine ⟨_, exec_shl h cpu X Y (by omega) hY hf, ?_, ?_, ?_, ?_, rfl, ?_⟩
    · simp [upd, hFX]
    · simp [upd, hXF, Nat.mul_comm]
    · simp only [upd, if_neg hXF, if_neg hFX, if_true]
      omega
    · intro h1 h2
      simp [upd, h1, h2]
    · intro hYX v
      refine ⟨_, exec_shl h { cpu with V := upd cpu.V Y v } X Y (by omega) hY hf, ?_, ?_⟩
      · simp [upd, hXF, Ne.symm hYX]
      · simp [upd, hFX, Ne.symm hYX]

/-- Instance of C11 with VX = 0x85 and Y = 2: `8126` gives VF = 1 and VX = 0x42; `812E`
gives VF = 1 and VX = 0x0A. -/
theorem C11_shifts_witness :
    (∃ cpu', chip8cpu_exec_cycle host0 cpu_8126 = some cpu' ∧
      cpu'.V 0xF = 1 ∧ cpu'.V 1 = 0x42 ∧ cpu'.V 2 = 7 ∧ cpu'.pc = 0x202) ∧
    (∃ cpu', chip8cpu_exec_cycle host0 cpu_812E = some cpu' ∧
      cpu'.V 0xF = 1 ∧ cpu'.V 1 = 0x0A ∧ cpu'.V 2 = 7 ∧ cpu'.pc = 0x202) := by
  obtain ⟨c1, e1, a1, b1, -, d1, p1, -⟩ :=
    (C11_shifts host0 cpu_8126 1 2 (by decide) (by decide)).1 (by decide)
  obtain ⟨c2, e2, a2, b2, -, d2, p2, -⟩ :=
    (C11_shifts host0 cpu_812E 1 2 (by decide) (by decide)).2 (by decide)
  exact ⟨⟨c1, e1, a1, b1, d1 (by decide) (by decide), p1⟩,
    ⟨c2, e2, a2, b2, d2 (by decide) (by decide), p2⟩⟩

/-! ## Font address -/

theorem exec_font (h : Host) (cpu : chip8cpu) (X : Nat) (hX : X < 16)
    (hf : fetch cpu = some (0xF029 + 256 * X)) :
    chip8cpu_exec_cycle h cpu =
      some { cpu with opcode := 0xF029 + 256 * X, I := cpu.V X * 5 % 65536,
                      pc := cpu.pc + 2 } := by
  have hb := fetch_bound hf
  have hx : opX (0xF029 + 256 * X) = X := by rw [opX_eq]; omega
  have hsel : (0xF029 + 256 * X) &&& 0x00FF = 0x29 := by rw [and_FF]; omega
  rw [exec_of_fetch h cpu _ hf,
    dispatch_F h _ (by show (0xF029 + 256 * X) / 4096 % 16 = 15; omega)]
  simp only [_chip8cpu_opcode_handler_F, hx, hsel]
  simp only [Nat.reduceEqDiff, if_false, if_true]
  rw [Nat.mod_eq_of_lt (show cpu.pc + 2 < 65536 by omega)]

/-- Counterexample to C12 as stated: with V3 = 0x1A, `F329` sets I to 5 * 0x1A = 130, not to
5 * (0x1A mod 16) = 50. -/
theorem C12_counterexample :
    fetch cpu_F329 = some (0xF029 + 256 * 3) ∧ cpu_F329.V 3 = 0x1A ∧
    ∃ cpu', chip8cpu_exec_cycle host0 cpu_F329 = some cpu' ∧ cpu'.I = 130 ∧
      cpu'.I ≠ 5 * (cpu_F329.V 3 % 16) :=
  ⟨by decide, rfl, _, exec_font host0 cpu_F329 3 (by decide) (by decide), rfl, by decide⟩

/-- Claim C12, amended: for every register index X and every state (VX an 8-bit value), one
cycle executing FX29 sets I to 5 * VX and advances PC by 2. When VX <= 15 this is
5 * (VX mod 16), the font-glyph base address of digit VX, and on a freshly constructed
machine the five memory bytes at that I are the five rows of the glyph of hexadecimal digit
VX in the font table. -/
theorem C12_font_address (h : Host) (cpu : chip8cpu) (X : Nat) (hX : X < 16)
    (hV : cpu.V X < 256) (hf : fetch cpu = some (0xF029 + 256 * X)) :
    ∃ cpu', chip8cpu_exec_cycle h cpu = some cpu' ∧
      cpu'.I = 5 * cpu.V X ∧ cpu'.pc = cpu.pc + 2 ∧
      (cpu.V X ≤ 15 →
        cpu'.I = 5 * (cpu.V X % 16) ∧
        ∀ j, j < 5 → chip8cpu_new.memory (cpu'.I + j) = chip8_fontset.getD (5 * cpu.V X + j) 0) := by
  refine ⟨_, exec_font h cpu X hX hf, ?_, rfl, ?_⟩
  · show cpu.V X * 5 % 65536 = 5 * cpu.V X
    omega
  · intro hle
    have hI : cpu.V X * 5 % 65536 = 5 * cpu.V X := by omega
    refine ⟨?_, ?_⟩
    · show cpu.V X * 5 % 65536 = 5 * (cpu.V X % 16)
      omega
    · intro j hj
      show chip8cpu_new.memory (cpu.V X * 5 % 65536 + j) = _
      rw [hI]
      exact new_memory_font _ (by omega)

/-- Instance of C12: with V3 = 0x0A, `F329` sets I to 50, where a fresh machine holds the
glyph of digit A, whose first row is 0xF0. -/
theorem C12_font_address_witness :
    ∃ cpu', chip8cpu_exec_cycle host0 cpu_F329_A = some cpu' ∧
      cpu'.I = 50 ∧ cpu'.pc = 0x202 ∧ chip8cpu_new.memory (cpu'.I + 0) = 0xF0 := by
  obtain ⟨c, e, hI, hp, hg⟩ :=
    C12_font_address host0 cpu_F329_A 3 (by decide) (by decide) (by decide)
  exact ⟨c, e, hI, hp, ((hg (by decide)).2 0 (by decide)).trans (by decide)⟩

/-! ## Binary-coded decimal -/

theorem exec_bcd (h : Host) (cpu : chip8cpu) (X : Nat) (hX : X < 16) (hI : cpu.I + 2 ≤ 4095)
    (hf : fetch cpu = some (0xF033 + 256 * X)) :
    chip8cpu_exec_cycle h cpu =
      some { cpu with opcode := 0xF033 + 256 * X,
                      memory := upd (upd (upd cpu.memory cpu.I (cpu.V X / 100)) (cpu.I + 1)
                        (cpu.V X / 10 % 10)) (cpu.I + 2) (cpu.V X % 10),
                      pc := cpu.pc + 2 } := by
  have hb := fetch_bound hf
  have hx : opX (0xF033 + 256 * X) = X := by rw [opX_eq]; omega
  have hsel : (0xF033 + 256 * X) &&& 0x00FF = 0x33 := by rw [and_FF]; omega
  rw [exec_of_fetch h cpu _ hf,
    dispatch_F h _ (by show (0xF033 + 256 * X) / 4096 % 16 = 15; omega)]
  simp only [_chip8cpu_opcode_handler_F, hx, hsel]
  simp only [Nat.reduceEqDiff, if_false, if_true]
  rw [if_pos (by omega), Nat.mod_eq_of_lt (show cpu.pc + 2 < 65536 by omega)]

/-- Claim C13: for every register index X and every state with I + 2 <= 4095 (VX an 8-bit
value), one cycle executing FX33 writes three decimal digits h, t, u to memory[I],
memory[I+1], memory[I+2] with h <= 2, t <= 9, u <= 9 and 100 h + 10 t + u = VX; every other
memory byte, every register and I are unchanged, and PC advances by 2. -/
theorem C13_bcd (h : Host) (cpu : chip8cpu) (X : Nat) (hX : X < 16) (hV : cpu.V X < 256)
    (hI : cpu.I + 2 ≤ 4095) (hf : fetch cpu = some (0xF033 + 256 * X)) :
    ∃ cpu', chip8cpu_exec_cycle h cpu = some cpu' ∧
      cpu'.memory cpu.I ≤ 2 ∧ cpu'.memory (cpu.I + 1) ≤ 9 ∧ cpu'.memory (cpu.I + 2) ≤ 9 ∧
      100 * cpu'.memory cpu.I + 10 * cpu'.memory (cpu.I + 1) + cpu'.memory (cpu.I + 2) = cpu.V X ∧
      (∀ a, a ≠ cpu.I → a ≠ cpu.I + 1 → a ≠ cpu.I + 2 → cpu'.memory a = cpu.memory a) ∧
      cpu'.V = cpu.V ∧ cpu'.I = cpu.I ∧ cpu'.pc = cpu.pc + 2 := by
  have m0 : upd (upd (upd cpu.memory cpu.I (cpu.V X / 100)) (cpu.I + 1)
      (cpu.V X / 10 % 10)) (cpu.I + 2) (cpu.V X % 10) cpu.I = cpu.V X / 100 := by
    simp [upd]
  have m1 : upd (upd (upd cpu.memory cpu.I (cpu.V X / 100)) (cpu.I + 1)
      (cpu.V X / 10 % 10)) (cpu.I + 2) (cpu.V X % 10) (cpu.I + 1) = cpu.V X / 10 % 10 := by
    simp [upd]
  have m2 : upd (upd (upd cpu.memory cpu.I (cpu.V X / 100)) (cpu.I + 1)
      (cpu.V X / 10 % 10)) (cpu.I + 2) (cpu.V X % 10) (cpu.I + 2) = cpu.V X % 10 := by
    simp [upd]
  refine ⟨_, exec_bcd h cpu X hX hI hf, ?_, ?_, ?_, ?_, ?_, rfl, rfl, rfl⟩
  · dsimp only
    rw [m0]
    omega
  · dsimp only
    rw [m1]
    omega
  · dsimp only
    rw [m2]
    omega
  · dsimp only
    rw [m0, m1, m2]
    omega
  · intro a h0 h1 h2
    simp [upd, h0, h1, h2]

/-- Instance of C13: with V3 = 254 and I = 0x300, `F333` stores 2, 5, 4 at 0x300..0x302. -/
theorem C13_bcd_witness :
    ∃ cpu', chip8cpu_exec_cycle host0 cpu_F333 = some cpu' ∧
      cpu'.memory 0x300 = 2 ∧ cpu'.memory 0x301 = 5 ∧ cpu'.memory 0x302 = 4 ∧
      cpu'.pc = 0x202 := by
  have e := exec_bcd host0 cpu_F333 3 (by decide) (by decide) (by decide)
  obtain ⟨c, e', -, -, -, -, -, -, -, hp⟩ :=
    C13_bcd host0 cpu_F333 3 (by decide) (by decide) (by decide) (by decide)
  rw [e] at e'
  cases e'
  exact ⟨_, e, rfl, rfl, rfl, rfl⟩

/-! ## Register block transfer -/

theorem store_reg_loop (cpu : chip8cpu) (k : Nat) (hk : cpu.I + k ≤ 4096) :
    (List.range k).foldl store_reg (some cpu) =
      some { cpu with memory := fun a =>
        if cpu.I ≤ a ∧ a < cpu.I + k then cpu.V (a - cpu.I) else cpu.memory a } := by
  induction k with
  | zero =>
    simp only [List.range_zero, List.foldl_nil]
    congr 1
    cases cpu
    simp only [chip8cpu.mk.injEq, and_true, true_and]
    funext a
    rw [if_neg (by omega)]
  | succ k ih =>
    rw [List.range_succ, List.foldl_append, ih (by omega)]
    simp only [List.foldl_cons, List.foldl_nil, store_reg, Option.bind]
    rw [if_pos (by omega)]
    congr 2
    funext a
    unfold upd
    dsimp only
    by_cases ha : a = cpu.I + k
    · subst ha
      rw [if_pos rfl, if_pos (by omega), Nat.add_sub_cancel_left]
    · rw [if_neg ha]
      by_cases hin : cpu.I ≤ a ∧ a < cpu.I + k
      · rw [if_pos hin, if_pos (by omega)]
      · rw [if_neg hin, if_neg (by omega)]

theorem load_reg_loop (cpu : chip8cpu) (k : Nat) (hk : cpu.I + k ≤ 4096) :
    (List.range k).foldl load_reg (some cpu) =
      some { cpu with V := fun i => if i < k then cpu.memory (cpu.I + i) else cpu.V i } := by
  induction k with
  | zero =>
    simp only [List.range_zero, List.foldl_nil]
    congr 1
  | succ k ih =>
    rw [List.range_succ, List.foldl_append, ih (by omega)]
    simp only [List.foldl_cons, List.foldl_nil, load_reg, Option.bind]
    rw [if_pos (by omega)]
    congr 2
    funext a
    unfold upd
    dsimp only
    by_cases ha : a = k
    · subst ha
      rw [if_pos rfl, if_pos (by omega)]
    · rw [if_neg ha]
      by_cases hin : a < k
      · rw [if_pos hin, if_pos (by omega)]
      · rw [if_neg hin, if_neg (by omega)]

theorem exec_store (h : Host) (cpu : chip8cpu) (X : Nat) (hX : X < 16) (hI : cpu.I + X ≤ 4095)
    (hf : fetch cpu = some (0xF055 + 256 * X)) :
    chip8cpu_exec_cycle h cpu =
      some { cpu with opcode := 0xF055 + 256 * X,
                      memory := fun a =>
                        if cpu.I ≤ a ∧ a < cpu.I + (X + 1) then cpu.V (a - cpu.I) else cpu.memory a,
                      pc := cpu.pc + 2 } := by
  have hb := fetch_bound hf
  have hx : opX (0xF055 + 256 * X) = X := by rw [opX_eq]; omega
  have hsel : (0xF055 + 256 * X) &&& 0x00FF = 0x55 := by rw [and_FF]; omega
  rw [exec_of_fetch h cpu _ hf,
    dispatch_F h _ (by show (0xF055 + 256 * X) / 4096 % 16 = 15; omega)]
  simp only [_chip8cpu_opcode_handler_F, hx, hsel]
  simp only [Nat.reduceEqDiff, if_false, if_true]
  rw [store_reg_loop _ (X + 1) (by show cpu.I + (X + 1) ≤ 4096; omega)]
  simp only [Option.map]
  rw [Nat.mod_eq_of_lt (show cpu.pc + 2 < 65536 by omega)]

theorem exec_load (h : Host) (cpu : chip8cpu) (X : Nat) (hX : X < 16) (hI : cpu.I + X ≤ 4095)
    (hf : fetch cpu = some (0xF065 + 256 * X)) :
    chip8cpu_exec_cycle h cpu =
      some { cpu with opcode := 0xF065 + 256 * X,
                      V := fun i => if i < X + 1 then cpu.memory (cpu.I + i) else cpu.V i,
                      pc := cpu.pc + 2 } := by
  have hb := fetch_bound hf
  have hx : opX (0xF065 + 256 * X) = X := by rw [opX_eq]; omega
  have hsel : (0xF065 + 256 * X) &&& 0x00FF = 0x65 := by rw [and_FF]; omega
  rw [exec_of_fetch h cpu _ hf,
    dispatch_F h _ (by show (0xF065 + 256 * X) / 4096 % 16 = 15; omega)]
  simp only [_chip8cpu_opcode_handler_F, hx, hsel]
  simp only [Nat.reduceEqDiff, if_false, if_true]
  rw [load_reg_loop _ (X + 1) (by show cpu.I + (X + 1) ≤ 4096; omega)]
  simp only [Option.map]
  rw [Nat.mod_eq_of_lt (show cpu.pc + 2 < 65536 by omega)]

/-- Claim C14: for every register-index field X in 0..15 and every state with
I + X <= 4095, one cycle executing FX55 sets memory[I + i] to register i for every i in
0..X and leaves every other memory byte, every register and I unchanged; and if FX65 with
the same X is afterwards executed in any state that has that same memory and the same I
(whatever its registers hold), registers 0..X are restored to the values they had when FX55
ran, while registers above X and I are left untouched. -/
theorem C14_block_transfer (h : Host) (cpu : chip8cpu) (X : Nat) (hX : X < 16)
    (hI : cpu.I + X ≤ 4095) (hf : fetch cpu = some (0xF055 + 256 * X)) :
    ∃ cpu', chip8cpu_exec_cycle h cpu = some cpu' ∧
      (∀ i, i ≤ X → cpu'.memory (cpu.I + i) = cpu.V i) ∧
      (∀ a, a < cpu.I ∨ cpu.I + X < a → cpu'.memory a = cpu.memory a) ∧
      cpu'.V = cpu.V ∧ cpu'.I = cpu.I ∧
      (∀ (h2 : Host) (cpu2 : chip8cpu), cpu2.memory = cpu'.memory → cpu2.I = cpu.I →
        fetch cpu2 = some (0xF065 + 256 * X) →
        ∃ cpu3, chip8cpu_exec_cycle h2 cpu2 = some cpu3 ∧
          (∀ i, i ≤ X → cpu3.V i = cpu.V i) ∧
          (∀ i, X < i → cpu3.V i = cpu2.V i) ∧ cpu3.I = cpu2.I) := by
  have hmem : ∀ i, i ≤ X →
      (if cpu.I ≤ cpu.I + i ∧ cpu.I + i < cpu.I + (X + 1) then cpu.V (cpu.I + i - cpu.I)
        else cpu.memory (cpu.I + i)) = cpu.V i := by
    intro i hi
    rw [if_pos (by omega), Nat.add_sub_cancel_left]
  refine ⟨_, exec_store h cpu X hX hI hf, hmem, ?_, rfl, rfl, ?_⟩
  · intro a ha
    show (if cpu.I ≤ a ∧ a < cpu.I + (X + 1) then cpu.V (a - cpu.I) else cpu.memory a) = _
    rw [if_neg (by omega)]
  · intro h2 cpu2 hm2 hI2 hf2
    refine ⟨_, exec_load h2 cpu2 X hX (by rw [hI2]; exact hI) hf2, ?_, ?_, rfl⟩
    · intro i hi
      show (if i < X + 1 then cpu2.memory (cpu2.I + i) else cpu2.V i) = _
      rw [if_pos (by omega), hm2, hI2]
      exact hmem i hi
    · intro i hi
      show (if i < X + 1 then cpu2.memory (cpu2.I + i) else cpu2.V i) = _
      rw [if_neg (by omega)]

/-- Instance of C14: `F255` stores V0..V2 = 1, 2, 3 at 0x300..0x302; `F265`, run afterwards
from 0x202 with every register holding 0xEE, restores V0..V2 and leaves V3 = 0xEE. -/
theorem C14_block_transfer_witness :
    ∃ cpu' cpu3, chip8cpu_exec_cycle host0 cpu_F255 = some cpu' ∧
      cpu'.memory 0x300 = 1 ∧ cpu'.memory 0x301 = 2 ∧ cpu'.memory 0x302 = 3 ∧
      cpu'.memory 0x303 = 0 ∧
      chip8cpu_exec_cycle host0 { cpu' with V := fun _ => 0xEE, pc := 0x202 } = some cpu3 ∧
      cpu3.V 0 = 1 ∧ cpu3.V 1 = 2 ∧ cpu3.V 2 = 3 ∧ cpu3.V 3 = 0xEE := by
  obtain ⟨cpu', e, hm, ho, -, hI', hback⟩ :=
    C14_block_transfer host0 cpu_F255 2 (by decide) (by decide) (by decide)
  have m1 : cpu'.memory 0x202 = 0xF2 := ho 0x202 (Or.inl (by decide))
  have m2 : cpu'.memory 0x203 = 0x65 := ho 0x203 (Or.inl (by decide))
  have hf2 : fetch { cpu' with V := fun _ => 0xEE, pc := 0x202 } = some (0xF065 + 256 * 2) := by
    show (if 0x202 + 1 < 4096 then
      some (((cpu'.memory 0x202 <<< 8) ||| cpu'.memory (0x202 + 1)) % 65536) else none) = _
    rw [m1, m2]
    rfl
  obtain ⟨cpu3, e3, hr, hu, -⟩ :=
    hback host0 { cpu' with V := fun _ => 0xEE, pc := 0x202 } rfl hI' hf2
  exact ⟨cpu', cpu3, e, hm 0 (by decide), hm 1 (by decide), hm 2 (by decide),
    ho 0x303 (Or.inr (by decide)), e3, hr 0 (by decide), hr 1 (by decide), hr 2 (by decide),
    hu 3 (by decide)⟩

/-! ## Words without a defined meaning -/

theorem dispatch_E (h : Host) (cpu : chip8cpu) (hf : cpu.opcode / 4096 % 16 = 14) :
    dispatch h cpu = _chip8cpu_opcode_handler_E h cpu := by
  unfold dispatch
  rw [family_eq, hf]

theorem exec_undefined_0 (h : Host) (cpu : chip8cpu) (w : Nat) (hf : fetch cpu = some w)
    (hfam : w / 4096 % 16 = 0) (h1 : w ≠ 0x00E0) (h2 : w ≠ 0x00EE) :
    chip8cpu_exec_cycle h cpu = some (_chip8cpu_log_error { cpu with opcode := w }) := by
  rw [exec_of_fetch h cpu _ hf, dispatch_0 h _ hfam]
  simp only [_chip8cpu_opcode_handler_0]
  rw [if_neg h1, if_neg h2]

theorem exec_undefined_8 (h : Host) (cpu : chip8cpu) (w : Nat) (hf : fetch cpu = some w)
    (hfam : w / 4096 % 16 = 8)
    (hn : w % 16 = 0x8 ∨ w % 16 = 0x9 ∨ w % 16 = 0xA ∨ w % 16 = 0xB ∨ w % 16 = 0xC ∨
      w % 16 = 0xD ∨ w % 16 = 0xF) :
    chip8cpu_exec_cycle h cpu = some { cpu with opcode := w } := by
  rw [exec_of_fetch h cpu _ hf, dispatch_8 h _ hfam]
  unfold _chip8cpu_opcode_handler_8
  simp only [and_F]
  rcases hn with e | e | e | e | e | e | e <;> rw [e]

theorem exec_undefined_E (h : Host) (cpu : chip8cpu) (w : Nat) (hf : fetch cpu = some w)
    (hfam : w / 4096 % 16 = 14) (h1 : w % 256 ≠ 0x9E) (h2 : w % 256 ≠ 0xA1) :
    chip8cpu_exec_cycle h cpu = some (_chip8cpu_log_error { cpu with opcode := w }) := by
  rw [exec_of_fetch h cpu _ hf, dispatch_E h _ hfam]
  simp only [_chip8cpu_opcode_handler_E, and_FF]
  rw [if_neg h1, if_neg h2]

theorem exec_undefined_F (h : Host) (cpu : chip8cpu) (w : Nat) (hf : fetch cpu = some w)
    (hfam : w / 4096 % 16 = 15)
    (hs : w % 256 ≠ 0x07 ∧ w % 256 ≠ 0x0A ∧ w % 256 ≠ 0x15 ∧
      w % 256 ≠ 0x18 ∧ w % 256 ≠ 0x1E ∧ w % 256 ≠ 0x29 ∧ w % 256 ≠ 0x33 ∧
      w % 256 ≠ 0x55 ∧ w % 256 ≠ 0x65) :
    chip8cpu_exec_cycle h cpu = some (_chip8cpu_log_error { cpu with opcode := w }) := by
  obtain ⟨a1, a2, a3, a4, a5, a6, a7, a8, a9⟩ := hs
  rw [exec_of_fetch h cpu _ hf, dispatch_F h _ hfam]
  simp only [_chip8cpu_opcode_handler_F, and_FF]
  rw [if_neg a1, if_neg a2, if_neg a3, if_neg a4, if_neg a5, if_neg a6, if_neg a7, if_neg a8,
    if_neg a9]

/-- Claim C15: for every state and every fetched instruction word with no defined meaning
(`undefined_word`), one call of `chip8cpu_exec_cycle` leaves PC, all registers, I, memory,
stack, SP, both timers and the display buffer unchanged, so the next cycle fetches the same
word again. -/
theorem C15_undefined_stall (h : Host) (cpu : chip8cpu) (w : Nat) (hf : fetch cpu = some w)
    (hu : undefined_word w) :
    ∃ cpu', chip8cpu_exec_cycle h cpu = some cpu' ∧
      cpu'.pc = cpu.pc ∧ cpu'.V = cpu.V ∧ cpu'.I = cpu.I ∧ cpu'.memory = cpu.memory ∧
      cpu'.stack = cpu.stack ∧ cpu'.sp = cpu.sp ∧ cpu'.delay_timer = cpu.delay_timer ∧
      cpu'.sound_timer = cpu.sound_timer ∧ cpu'.gfx = cpu.gfx ∧ fetch cpu' = some w := by
  rcases hu with ⟨hfam, h1, h2⟩ | ⟨hfam, hn⟩ | ⟨hfam, h1, h2⟩ | ⟨hfam, hs⟩
  · exact ⟨_, exec_undefined_0 h cpu w hf hfam h1 h2, rfl, rfl, rfl, rfl, rfl, rfl, rfl, rfl,
      rfl, hf⟩
  · exact ⟨_, exec_undefined_8 h cpu w hf hfam hn, rfl, rfl, rfl, rfl, rfl, rfl, rfl, rfl,
      rfl, hf⟩
  · exact ⟨_, exec_undefined_E h cpu w hf hfam h1 h2, rfl, rfl, rfl, rfl, rfl, rfl, rfl, rfl,
      rfl, hf⟩
  · exact ⟨_, exec_undefined_F h cpu w hf hfam hs, rfl, rfl, rfl, rfl, rfl, rfl, rfl, rfl,
      rfl, hf⟩

/-- Instance of C15: the undefined word `E100` leaves PC at 0x200 and is fetched again. -/
theorem C15_undefined_stall_witness :
    ∃ cpu', chip8cpu_exec_cycle host0 cpu_E100 = some cpu' ∧ cpu'.pc = 0x200 ∧
      cpu'.V = cpu_E100.V ∧ cpu'.gfx = cpu_E100.gfx ∧ fetch cpu' = some 0xE100 := by
  obtain ⟨c, e, hp, hv, -, -, -, -, -, -, hg, hf⟩ :=
    C15_undefined_stall host0 cpu_E100 0xE100 (by decide)
      (Or.inr (Or.inr (Or.inl ⟨by decide, by decide, by decide⟩)))
  exact ⟨c, e, hp, hv, hg, hf⟩

/-- Evaluation for C16 at the failing input: on the undefined family-8 word `8128` the cycle
calls no capability at all (the switch of `_chip8cpu_opcode_handler_8` has no default
branch), so nothing is logged; on the undefined family-E word `E100` the sibling handler
calls the log capability at level `C8E_LOG_ERR`. -/
theorem C16_family8_not_logged :
    fetch cpu_8128 = some 0x8128 ∧ undefined_word 0x8128 ∧
    chip8cpu_exec_cycle host0 cpu_8128 = some { cpu_8128 with opcode := 0x8128 } ∧
    ({ cpu_8128 with opcode := 0x8128 } : chip8cpu).calls = cpu_8128.calls ∧
    chip8cpu_exec_cycle host0 cpu_E100 =
      some { cpu_E100 with opcode := 0xE100, calls := cpu_E100.calls ++ [Event.log C8E_LOG_ERR] } :=
  ⟨by decide, Or.inr (Or.inl ⟨by decide, Or.inl (by decide)⟩), rfl, rfl, rfl⟩

/-! ## Copying a machine -/

theorem chip8cpu_copy_fields (h : Host) (cpu fresh : chip8cpu) :
    (∀ i, i < 4096 → (chip8cpu_copy h cpu fresh).memory i = cpu.memory i) ∧
    (∀ i, i < 2048 → (chip8cpu_copy h cpu fresh).gfx i = cpu.gfx i) ∧
    (∀ i, i < 16 → (chip8cpu_copy h cpu fresh).V i = cpu.V i) ∧
    (∀ i, i < 8 → (chip8cpu_copy h cpu fresh).stack i = cpu.stack i) ∧
    (∀ i, 8 ≤ i → (chip8cpu_copy h cpu fresh).stack i = fresh.stack i) ∧
    (chip8cpu_copy h cpu fresh).sp = cpu.sp ∧ (chip8cpu_copy h cpu fresh).I = cpu.I ∧
    (chip8cpu_copy h cpu fresh).pc = cpu.pc ∧
    (chip8cpu_copy h cpu fresh).delay_timer = call_delay_get h cpu ∧
    (chip8cpu_copy h cpu fresh).sound_timer = call_sound_get h cpu ∧
    (chip8cpu_copy h cpu fresh).draw = cpu.draw ∧
    (chip8cpu_copy h cpu fresh).keystate = cpu.keystate ∧
    (chip8cpu_copy h cpu fresh).beep = cpu.beep ∧ (chip8cpu_copy h cpu fresh).log = cpu.log ∧
    (chip8cpu_copy h cpu fresh).delay_get = cpu.delay_get ∧
    (chip8cpu_copy h cpu fresh).delay_set = cpu.delay_set ∧
    (chip8cpu_copy h cpu fresh).sound_get = cpu.sound_get ∧
    (chip8cpu_copy h cpu fresh).sound_set = cpu.sound_set ∧
    (chip8cpu_copy h cpu fresh).rand = fresh.rand := by
  refine ⟨?_, ?_, ?_, ?_, ?_, rfl, rfl, rfl, rfl, rfl, rfl, rfl, rfl, rfl, rfl, rfl, rfl, rfl,
    rfl⟩
  · intro i hi
    show memcpy_cells fresh.memory cpu.memory 4096 i = _
    rw [memcpy_cells, if_pos hi]
  · intro i hi
    show memcpy_cells fresh.gfx cpu.gfx 2048 i = _
    rw [memcpy_cells, if_pos hi]
  · intro i hi
    show memcpy_cells fresh.V cpu.V 16 i = _
    rw [memcpy_cells, if_pos hi]
  · intro i hi
    show memcpy_cells fresh.stack cpu.stack 8 i = _
    rw [memcpy_cells, if_pos hi]
  · intro i hi
    show memcpy_cells fresh.stack cpu.stack 8 i = _
    rw [memcpy_cells, if_neg (by omega)]

/-- Evaluation for C17 at the failing input: copying a machine nine calls deep (stack
entry 8 = 0x0210, default random source) into a zero-filled block gives a copy whose stack
entry 8 is 0 and whose `rand` slot is empty; the other compared fields agree with the
source. -/
theorem C17_copy_misses_stack_and_rand :
    cpu_depth9.stack 8 = 0x210 ∧ (chip8cpu_copy host0 cpu_depth9 zero_block).stack 8 = 0 ∧
    cpu_depth9.rand = FnRef.builtin ∧
    (chip8cpu_copy host0 cpu_depth9 zero_block).rand = FnRef.null ∧
    (chip8cpu_copy host0 cpu_depth9 zero_block).stack 7 = cpu_depth9.stack 7 ∧
    (chip8cpu_copy host0 cpu_depth9 zero_block).sp = 9 ∧
    (chip8cpu_copy host0 cpu_depth9 zero_block).pc = 0x300 :=
  ⟨rfl, rfl, rfl, rfl, rfl, rfl, rfl⟩

/-! ## Flags of the family-8 arithmetic -/

theorem exec_family8 (h : Host) (cpu : chip8cpu) (X Y n : Nat) (hX : X < 16) (hY : Y < 16)
    (hn : n < 16) (hf : fetch cpu = some (0x8000 + 256 * X + 16 * Y + n)) :
    chip8cpu_exec_cycle h cpu =
      _chip8cpu_opcode_handler_8 { cpu with opcode := 0x8000 + 256 * X + 16 * Y + n } ∧
    opX (0x8000 + 256 * X + 16 * Y + n) = X ∧ opY (0x8000 + 256 * X + 16 * Y + n) = Y ∧
    (0x8000 + 256 * X + 16 * Y + n) &&& 0x000F = n := by
  refine ⟨?_, ?_, ?_, ?_⟩
  · rw [exec_of_fetch h cpu _ hf,
      dispatch_8 h _ (by show (0x8000 + 256 * X + 16 * Y + n) / 4096 % 16 = 8; omega)]
  · rw [opX_eq]; omega
  · rw [opY_eq]; omega
  · rw [and_F]; omega

theorem flag_add (h : Host) (cpu : chip8cpu) (X Y : Nat) (hX : X < 15) (hY : Y < 16)
    (hf : fetch cpu = some (0x8000 + 256 * X + 16 * Y + 4)) :
    ∃ cpu', chip8cpu_exec_cycle h cpu = some cpu' ∧
      cpu'.V 0xF = (if cpu.V X + cpu.V Y > 255 then 1 else 0) := by
  obtain ⟨e, hx, hy, hs⟩ := exec_family8 h cpu X Y 4 (by omega) hY (by omega) hf
  have hFX : ¬ 15 = X := by omega
  rw [e]
  unfold _chip8cpu_opcode_handler_8
  simp only [hx, hy, hs]
  refine ⟨_, rfl, ?_⟩
  split_ifs <;> simp [upd, hFX] <;> omega

theorem flag_sub (h : Host) (cpu : chip8cpu) (X Y : Nat) (hX : X < 15) (hY : Y < 16)
    (hf : fetch cpu = some (0x8000 + 256 * X + 16 * Y + 5)) :
    ∃ cpu', chip8cpu_exec_cycle h cpu = some cpu' ∧
      cpu'.V 0xF = (if cpu.V Y > cpu.V X then 0 else 1) := by
  obtain ⟨e, hx, hy, hs⟩ := exec_family8 h cpu X Y 5 (by omega) hY (by omega) hf
  have hFX : ¬ 15 = X := by omega
  rw [e]
  unfold _chip8cpu_opcode_handler_8
  simp only [hx, hy, hs]
  refine ⟨_, rfl, ?_⟩
  split_ifs <;> simp [upd, hFX]

theorem flag_subn (h : Host) (cpu : chip8cpu) (X Y : Nat) (hX : X < 15) (hY : Y < 16)
    (hf : fetch cpu = some (0x8000 + 256 * X + 16 * Y + 7)) :
    ∃ cpu', chip8cpu_exec_cycle h cpu = some cpu' ∧
      cpu'.V 0xF = (if cpu.V X > cpu.V Y then 0 else 1) := by
  obtain ⟨e, hx, hy, hs⟩ := exec_family8 h cpu X Y 7 (by omega) hY (by omega) hf
  have hFX : ¬ 15 = X := by omega
  rw [e]
  unfold _chip8cpu_opcode_handler_8
  simp only [hx, hy, hs]
  refine ⟨_, rfl, ?_⟩
  split_ifs <;> simp [upd, hFX]

theorem msb_eq (v : Nat) (hv : v < 256) : v / 128 = (Nat.testBit v 7).toNat := by
  rw [Nat.testBit_to_div_mod]
  have h2 : v / 128 = 0 ∨ v / 128 = 1 := by omega
  rcases h2 with e | e <;> simp [e]

/-- Counterexample to C18 as stated (X = 0xF included): `8F14` with VF = 200 and V1 = 100.
The sum exceeds 255, so the flag is 1; the handler stores the flag in register 0xF and then
adds V1 to register X, which is register 0xF again, leaving 101 there. -/
theorem C18_counterexample :
    fetch cpu_8F14 = some (0x8000 + 256 * 15 + 16 * 1 + 4) ∧
    cpu_8F14.V 15 + cpu_8F14.V 1 > 255 ∧
    ∃ cpu', chip8cpu_exec_cycle host0 cpu_8F14 = some cpu' ∧ cpu'.V 0xF = 101 ∧
      cpu'.V 0xF ≠ (if cpu_8F14.V 15 + cpu_8F14.V 1 > 255 then 1 else 0) := by
  refine ⟨by decide, by decide, ?_⟩
  have e : chip8cpu_exec_cycle host0 cpu_8F14 =
      some { cpu_8F14 with opcode := 0x8F14, V := upd (upd cpu_8F14.V 0xF 1) 0xF 101,
                           pc := 0x202 } := by
    rfl
  exact ⟨_, e, rfl, by decide⟩

/-- Claim C18, amended to X other than 0xF: for all register indices X in 0..14 and Y in
0..15 (Y = 0xF included) and every state, after one cycle executing a flag-producing
family-8 instruction register 0xF holds the flag computed from the values VX and VY before
the cycle: for 8XY4, 1 if VX + VY > 255 else 0; for 8XY5, 0 if VY > VX else 1; for 8XY7, 0
if VX > VY else 1; for 8XY6, VX mod 2; for 8XYE, floor(VX / 128), which is the most
significant bit of an 8-bit VX. -/
theorem C18_flags (h : Host) (cpu : chip8cpu) (X Y : Nat) (hX : X < 15) (hY : Y < 16) :
    (fetch cpu = some (0x8000 + 256 * X + 16 * Y + 4) →
      ∃ cpu', chip8cpu_exec_cycle h cpu = some cpu' ∧
        cpu'.V 0xF = (if cpu.V X + cpu.V Y > 255 then 1 else 0)) ∧
    (fetch cpu = some (0x8000 + 256 * X + 16 * Y + 5) →
      ∃ cpu', chip8cpu_exec_cycle h cpu = some cpu' ∧
        cpu'.V 0xF = (if cpu.V Y > cpu.V X then 0 else 1)) ∧
    (fetch cpu = some (0x8000 + 256 * X + 16 * Y + 7) →
      ∃ cpu', chip8cpu_exec_cycle h cpu = some cpu' ∧
        cpu'.V 0xF = (if cpu.V X > cpu.V Y then 0 else 1)) ∧
    (fetch cpu = some (0x8000 + 256 * X + 16 * Y + 6) →
      ∃ cpu', chip8cpu_exec_cycle h cpu = some cpu' ∧ cpu'.V 0xF = cpu.V X % 2) ∧
    (fetch cpu = some (0x8000 + 256 * X + 16 * Y + 14) →
      ∃ cpu', chip8cpu_exec_cycle h cpu = some cpu' ∧ cpu'.V 0xF = cpu.V X / 128 ∧
        (cpu.V X < 256 → cpu'.V 0xF = (Nat.testBit (cpu.V X) 7).toNat)) := by
  have hFX : ¬ 15 = X := by omega
  refine ⟨flag_add h cpu X Y hX hY, flag_sub h cpu X Y hX hY, flag_subn h cpu X Y hX hY, ?_, ?_⟩
  · intro hf
    refine ⟨_, exec_shr h cpu X Y (by omega) hY hf, ?_⟩
    simp [upd, hFX]
  · intro hf
    have e : upd (upd cpu.V 0xF (cpu.V X / 128)) X
        (upd cpu.V 0xF (cpu.V X / 128) X * 2 % 256) 0xF = cpu.V X / 128 := by
      simp [upd, hFX]
    refine ⟨_, exec_shl h cpu X Y (by omega) hY hf, e, ?_⟩
    intro hv
    exact e.trans (msb_eq _ hv)

/-- Instance of C18 with Y = 0xF: `81F4` with V1 = 100 and VF = 200 leaves VF = 1. -/
theorem C18_flags_witness :
    ∃ cpu', chip8cpu_exec_cycle host0 cpu_81F4 = some cpu' ∧ cpu'.V 0xF = 1 :=
  (C18_flags host0 cpu_81F4 1 15 (by decide) (by decide)).1 (by decide)

/-! ## Return with a wrapped stack pointer -/

/-- Claim C19: for every state (any SP in 0..65535), one cycle executing 00EE sets PC to
(stack[(SP - 1) mod 16] + 2) mod 65536 and the stored stack pointer to (SP - 1) mod 65536
(the 4-bit mask is applied to the index only), so from SP = 0 the return reads stack entry
15 and leaves SP = 0xFFFF; the stack entries, registers, I, memory, timers and display are
unchanged. -/
theorem C19_return (h : Host) (cpu : chip8cpu) (hsp : cpu.sp < 65536)
    (hf : fetch cpu = some 0x00EE) :
    ∃ cpu', chip8cpu_exec_cycle h cpu = some cpu' ∧
      cpu'.pc = (cpu.stack (((cpu.sp : Int) - 1) % 16).toNat + 2) % 65536 ∧
      (cpu'.sp : Int) = ((cpu.sp : Int) - 1) % 65536 ∧
      (cpu.sp = 0 → cpu'.pc = (cpu.stack 15 + 2) % 65536 ∧ cpu'.sp = 0xFFFF) ∧
      cpu'.stack = cpu.stack ∧ cpu'.V = cpu.V ∧ cpu'.I = cpu.I ∧ cpu'.memory = cpu.memory ∧
      cpu'.delay_timer = cpu.delay_timer ∧ cpu'.sound_timer = cpu.sound_timer ∧
      cpu'.gfx = cpu.gfx := by
  have hidx : u16 ((cpu.sp : Int) - 1) &&& 0xF = (((cpu.sp : Int) - 1) % 16).toNat := by
    rw [and_F]
    unfold u16
    omega
  have e : chip8cpu_exec_cycle h cpu =
      some { cpu with opcode := 0x00EE, sp := u16 ((cpu.sp : Int) - 1),
                      pc := (cpu.stack (((cpu.sp : Int) - 1) % 16).toNat + 2) % 65536 } := by
    rw [exec_of_fetch h cpu _ hf, dispatch_0 h _ (by show 0x00EE / 4096 % 16 = 0; decide)]
    simp only [_chip8cpu_opcode_handler_0, hidx]
    rw [if_neg (by decide), if_pos trivial]
  refine ⟨_, e, rfl, ?_, ?_, rfl, rfl, rfl, rfl, rfl, rfl, rfl⟩
  · show ((u16 ((cpu.sp : Int) - 1) : Nat) : Int) = _
    unfold u16
    omega
  · intro h0
    refine ⟨?_, ?_⟩
    · show (cpu.stack (((cpu.sp : Int) - 1) % 16).toNat + 2) % 65536 = _
      rw [h0]
      rfl
    · show u16 ((cpu.sp : Int) - 1) = 0xFFFF
      rw [h0]
      rfl

/-- Instance of C19: from SP = 0 with stack entry 15 = 0x0300, `00EE` gives PC = 0x0302 and
SP = 0xFFFF. -/
theorem C19_return_witness :
    ∃ cpu', chip8cpu_exec_cycle host0 cpu_00EE_sp0 = some cpu' ∧
      cpu'.pc = 0x302 ∧ cpu'.sp = 0xFFFF ∧ cpu'.stack = cpu_00EE_sp0.stack := by
  obtain ⟨c, e, -, -, h0, hs, -⟩ := C19_return host0 cpu_00EE_sp0 (by decide) (by decide)
  exact ⟨c, e, (h0 rfl).1, (h0 rfl).2, hs⟩

/-! ## The display invariant -/

theorem foldl_option_inv (f : Option chip8cpu → Nat → Option chip8cpu) (P : chip8cpu → Prop)
    (hnone : ∀ i, f none i = none)
    (hstep : ∀ c i c', P c → f (some c) i = some c' → P c') (l : List Nat) :
    ∀ (init : Option chip8cpu), (∀ c0, init = some c0 → P c0) →
      ∀ c, l.foldl f init = some c → P c := by
  induction l with
  | nil =>
    intro init hinit c hc
    exact hinit c hc
  | cons a l ih =>
    intro init hinit c hc
    rw [List.foldl_cons] at hc
    refine ih (f init a) ?_ c hc
    intro c0 hc0
    cases init with
    | none =>
      rw [hnone a] at hc0
      exact Option.noConfusion hc0
    | some c1 => exact hstep c1 a c0 (hinit c1 rfl) hc0

theorem load_byte_gfx (code : List Nat) (cpu : chip8cpu) (k : Nat) (cpu' : chip8cpu)
    (e : (List.range k).foldl (load_byte code) (some cpu) = some cpu') : cpu'.gfx = cpu.gfx := by
  refine foldl_option_inv (load_byte code) (fun c => c.gfx = cpu.gfx) (fun _ => rfl) ?_
    (List.range k) (some cpu) ?_ cpu' e
  · intro c i c' hc hs
    simp only [load_byte, Option.bind] at hs
    split at hs
    · split_ifs at hs
      cases hs
      exact hc
    · exact Option.noConfusion hs
  · intro c0 hc0
    cases hc0
    rfl

theorem store_reg_gfx (cpu : chip8cpu) (k : Nat) (cpu' : chip8cpu)
    (e : (List.range k).foldl store_reg (some cpu) = some cpu') : cpu'.gfx = cpu.gfx := by
  refine foldl_option_inv store_reg (fun c => c.gfx = cpu.gfx) (fun _ => rfl) ?_
    (List.range k) (some cpu) ?_ cpu' e
  · intro c i c' hc hs
    simp only [store_reg, Option.bind] at hs
    split_ifs at hs
    cases hs
    exact hc
  · intro c0 hc0
    cases hc0
    rfl

theorem load_reg_gfx (cpu : chip8cpu) (k : Nat) (cpu' : chip8cpu)
    (e : (List.range k).foldl load_reg (some cpu) = some cpu') : cpu'.gfx = cpu.gfx := by
  refine foldl_option_inv load_reg (fun c => c.gfx = cpu.gfx) (fun _ => rfl) ?_
    (List.range k) (some cpu) ?_ cpu' e
  · intro c i c' hc hs
    simp only [load_reg, Option.bind] at hs
    split_ifs at hs
    cases hs
    exact hc
  · intro c0 hc0
    cases hc0
    rfl

theorem load_code_gfx (cpu cpu' : chip8cpu) (code : List Nat) (code_size r : Int)
    (e : chip8cpu_load_code cpu code code_size = some (cpu', r)) : cpu'.gfx = cpu.gfx := by
  unfold chip8cpu_load_code at e
  cases hfold : (List.range code_size.toNat).foldl (load_byte code) (some cpu) with
  | none =>
    rw [hfold] at e
    exact Option.noConfusion e
  | some c =>
    rw [hfold] at e
    simp only [Option.map] at e
    cases e
    exact load_byte_gfx code cpu _ _ hfold

theorem tick_gfx (h : Host) (cpu cpu' : chip8cpu) (e : chip8cpu_timer_tick h cpu = some cpu') :
    cpu'.gfx = cpu.gfx := by
  have hd : ∀ (c : chip8cpu) (v : Nat), (call_delay_set c v).gfx = c.gfx := by
    intro c v
    unfold call_delay_set
    split <;> rfl
  have hs : ∀ (c : chip8cpu) (v : Nat), (call_sound_set c v).gfx = c.gfx := by
    intro c v
    unfold call_sound_set
    split <;> rfl
  have h1 : (if call_delay_get h cpu > 0
      then call_delay_set cpu (u8 ((call_delay_get h cpu : Int) - 1)) else cpu).gfx = cpu.gfx := by
    split_ifs
    · exact hd _ _
    · rfl
  unfold chip8cpu_timer_tick call_beep at e
  dsimp only at e
  generalize (if call_delay_get h cpu > 0
    then call_delay_set cpu (u8 ((call_delay_get h cpu : Int) - 1)) else cpu) = cpu1 at e h1
  by_cases hs0 : call_sound_get h cpu > 0
  · rw [if_pos hs0] at e
    by_cases hs1 : call_sound_get h cpu = 1
    · rw [if_pos hs1] at e
      by_cases hb : cpu1.beep = FnRef.null
      · rw [if_pos hb] at e
        exact Option.noConfusion e
      · rw [if_neg hb] at e
        cases e
        rw [hs]
        exact h1
    · rw [if_neg hs1] at e
      cases e
      rw [hs]
      exact h1
  · rw [if_neg hs0] at e
    cases e
    exact h1

theorem tick_total (h : Host) (cpu : chip8cpu)
    (hbeep : call_sound_get h cpu = 1 → cpu.beep ≠ FnRef.null) :
    ∃ cpu', chip8cpu_timer_tick h cpu = some cpu' := by
  have hd : ∀ (c : chip8cpu) (v : Nat), (call_delay_set c v).beep = c.beep := by
    intro c v
    unfold call_delay_set
    split <;> rfl
  unfold chip8cpu_timer_tick call_beep
  dsimp only
  by_cases hs0 : call_sound_get h cpu > 0
  · rw [if_pos hs0]
    by_cases hs1 : call_sound_get h cpu = 1
    · have hb : (if call_delay_get h cpu > 0
          then call_delay_set cpu (u8 ((call_delay_get h cpu : Int) - 1)) else cpu).beep ≠
          FnRef.null := by
        split_ifs
        · rw [hd]
          exact hbeep hs1
        · exact hbeep hs1
      rw [if_pos hs1, if_neg hb]
      exact ⟨_, rfl⟩
    · rw [if_neg hs1]
      exact ⟨_, rfl⟩
  · rw [if_neg hs0]
    exact ⟨_, rfl⟩

theorem handler_1_gfx (cpu cpu' : chip8cpu) (e : _chip8cpu_opcode_handler_1 cpu = some cpu') :
    cpu'.gfx = cpu.gfx := by
  unfold _chip8cpu_opcode_handler_1 at e
  cases e
  rfl

theorem handler_2_gfx (cpu cpu' : chip8cpu) (e : _chip8cpu_opcode_handler_2 cpu = some cpu') :
    cpu'.gfx = cpu.gfx := by
  unfold _chip8cpu_opcode_handler_2 at e
  split_ifs at e
  cases e
  rfl

theorem handler_3_gfx (cpu cpu' : chip8cpu) (e : _chip8cpu_opcode_handler_3 cpu = some cpu') :
    cpu'.gfx = cpu.gfx := by
  unfold _chip8cpu_opcode_handler_3 at e
  split_ifs at e <;> (cases e; rfl)

theorem handler_4_gfx (cpu cpu' : chip8cpu) (e : _chip8cpu_opcode_handler_4 cpu = some cpu') :
    cpu'.gfx = cpu.gfx := by
  unfold _chip8cpu_opcode_handler_4 at e
  split_ifs at e <;> (cases e; rfl)

theorem handler_5_gfx (cpu cpu' : chip8cpu) (e : _chip8cpu_opcode_handler_5 cpu = some cpu') :
    cpu'.gfx = cpu.gfx := by
  unfold _chip8cpu_opcode_handler_5 at e
  split_ifs at e <;> (cases e; rfl)

theorem handler_6_gfx (cpu cpu' : chip8cpu) (e : _chip8cpu_opcode_handler_6 cpu = some cpu') :
    cpu'.gfx = cpu.gfx := by
  unfold _chip8cpu_opcode_handler_6 at e
  cases e
  rfl

theorem handler_7_gfx (cpu cpu' : chip8cpu) (e : _chip8cpu_opcode_handler_7 cpu = some cpu') :
    cpu'.gfx = cpu.gfx := by
  unfold _chip8cpu_opcode_handler_7 at e
  cases e
  rfl

theorem handler_8_gfx (cpu cpu' : chip8cpu) (e : _chip8cpu_opcode_handler_8 cpu = some cpu') :
    cpu'.gfx = cpu.gfx := by
  unfold _chip8cpu_opcode_handler_8 at e
  split at e <;> cases e <;> first | rfl | (dsimp only; split_ifs <;> rfl)

theorem handler_9_gfx (cpu cpu' : chip8cpu) (e : _chip8cpu_opcode_handler_9 cpu = some cpu') :
    cpu'.gfx = cpu.gfx := by
  unfold _chip8cpu_opcode_handler_9 at e
  split_ifs at e <;> (cases e; rfl)

theorem handler_A_gfx (cpu cpu' : chip8cpu) (e : _chip8cpu_opcode_handler_A cpu = some cpu') :
    cpu'.gfx = cpu.gfx := by
  unfold _chip8cpu_opcode_handler_A at e
  cases e
  rfl

theorem handler_B_gfx (cpu cpu' : chip8cpu) (e : _chip8cpu_opcode_handler_B cpu = some cpu') :
    cpu'.gfx = cpu.gfx := by
  unfold _chip8cpu_opcode_handler_B at e
  cases e
  rfl

theorem handler_C_gfx (h : Host) (cpu cpu' : chip8cpu)
    (e : _chip8cpu_opcode_handler_C h cpu = some cpu') : cpu'.gfx = cpu.gfx := by
  unfold _chip8cpu_opcode_handler_C at e
  cases e
  rfl

theorem handler_E_gfx (h : Host) (cpu cpu' : chip8cpu)
    (e : _chip8cpu_opcode_handler_E h cpu = some cpu') : cpu'.gfx = cpu.gfx := by
  unfold _chip8cpu_opcode_handler_E call_keystate at e
  by_cases hk : cpu.keystate = FnRef.null
  · simp only [if_pos hk] at e
    split_ifs at e
    cases e
    rfl
  · simp only [if_neg hk] at e
    split_ifs at e <;> (cases e; rfl)

theorem option_map_some {f : chip8cpu → chip8cpu} {o : Option chip8cpu} {c' : chip8cpu}
    (e : o.map f = some c') : ∃ c, o = some c ∧ f c = c' := by
  cases o with
  | none => exact Option.noConfusion e
  | some c =>
    simp only [Option.map] at e
    cases e
    exact ⟨c, rfl, rfl⟩

theorem handler_F_gfx (h : Host) (cpu cpu' : chip8cpu)
    (e : _chip8cpu_opcode_handler_F h cpu = some cpu') : cpu'.gfx = cpu.gfx := by
  unfold _chip8cpu_opcode_handler_F at e
  dsimp only at e
  by_cases h1 : cpu.opcode &&& 0x00FF = 0x07
  · rw [if_pos h1] at e
    cases e
    rfl
  rw [if_neg h1] at e
  by_cases h2 : cpu.opcode &&& 0x00FF = 0x0A
  · rw [if_pos h2] at e
    by_cases hk : cpu.keystate = FnRef.null
    · rw [if_pos hk] at e
      exact Option.noConfusion e
    · rw [if_neg hk] at e
      split at e <;> (cases e; rfl)
  rw [if_neg h2] at e
  by_cases h3 : cpu.opcode &&& 0x00FF = 0x15
  · rw [if_pos h3] at e
    cases e
    rfl
  rw [if_neg h3] at e
  by_cases h4 : cpu.opcode &&& 0x00FF = 0x18
  · rw [if_pos h4] at e
    cases e
    rfl
  rw [if_neg h4] at e
  by_cases h5 : cpu.opcode &&& 0x00FF = 0x1E
  · rw [if_pos h5] at e
    cases e
    rfl
  rw [if_neg h5] at e
  by_cases h6 : cpu.opcode &&& 0x00FF = 0x29
  · rw [if_pos h6] at e
    cases e
    rfl
  rw [if_neg h6] at e
  by_cases h7 : cpu.opcode &&& 0x00FF = 0x33
  · rw [if_pos h7] at e
    split_ifs at e
    cases e
    rfl
  rw [if_neg h7] at e
  by_cases h8 : cpu.opcode &&& 0x00FF = 0x55
  · rw [if_pos h8] at e
    obtain ⟨c, hc, rfl⟩ := option_map_some e
    exact store_reg_gfx cpu _ c hc
  rw [if_neg h8] at e
  by_cases h9 : cpu.opcode &&& 0x00FF = 0x65
  · rw [if_pos h9] at e
    obtain ⟨c, hc, rfl⟩ := option_map_some e
    exact load_reg_gfx cpu _ c hc
  rw [if_neg h9] at e
  cases e
  rfl

theorem handler_0_gfx (cpu cpu' : chip8cpu) (e : _chip8cpu_opcode_handler_0 cpu = some cpu') :
    (cpu.opcode = 0x00E0 → ∀ i, cpu'.gfx i = 0) ∧ (cpu.opcode ≠ 0x00E0 → cpu'.gfx = cpu.gfx) := by
  unfold _chip8cpu_opcode_handler_0 call_draw at e
  dsimp only at e
  split_ifs at e with h1 hd h2
  · cases e
    exact ⟨fun _ _ => rfl, fun hne => absurd h1 hne⟩
  · cases e
    exact ⟨fun he => absurd he h1, fun _ => rfl⟩
  · cases e
    exact ⟨fun he => absurd he h1, fun _ => rfl⟩

theorem handler_D_display (cpu cpu' : chip8cpu) (e : _chip8cpu_opcode_handler_D cpu = some cpu')
    (hok : display_ok cpu) : display_ok cpu' := by
  have hI : cpu.I + cpu.opcode % 16 ≤ 4096 := by
    by_contra hc
    unfold _chip8cpu_opcode_handler_D at e
    rw [and_F] at e
    dsimp only at e
    rw [if_neg hc] at e
    exact Option.noConfusion e
  have hdraw : cpu.draw ≠ FnRef.null := by
    intro hd0
    obtain ⟨f1, -⟩ :=
      draw_loops_spec (fun i => if i < cpu.opcode % 16 then cpu.memory (cpu.I + i) else 0)
        (cpu.V (opX cpu.opcode)) (cpu.V (opY cpu.opcode)) (cpu.opcode % 16)
        { cpu with V := upd cpu.V 0xF 0 } _ (by omega) rfl rfl
    have hd := congrArg chip8cpu.draw f1
    simp only [frame] at hd
    unfold _chip8cpu_opcode_handler_D call_draw at e
    rw [and_F, if_pos hI] at e
    simp only [hd, if_pos hd0] at e
    exact Option.noConfusion e
  obtain ⟨c, ec, -, g1, g2, -, -⟩ := handler_D_spec cpu hI hdraw
  rw [e] at ec
  cases ec
  intro i hi
  by_cases hform : ∃ r c, r < cpu.opcode % 16 ∧ c < 8 ∧
      (cpu.V (opX cpu.opcode) + c) % 64 + (cpu.V (opY cpu.opcode) + r) % 32 * 64 = i
  · obtain ⟨r, c, hr, hc, rfl⟩ := hform
    rw [g1 r c hr hc]
    rcases hok _ hi with h0 | h1
    · rw [h0]
      cases (cpu.memory (cpu.I + r)).testBit (7 - c)
      · left; rfl
      · right; rfl
    · rw [h1]
      cases (cpu.memory (cpu.I + r)).testBit (7 - c)
      · right; rfl
      · left; rfl
  · rw [g2 i (fun r c hr hc he => hform ⟨r, c, hr, hc, he⟩)]
    exact hok i hi
theorem dispatch_1 (h : Host) (cpu : chip8cpu) (hf : cpu.opcode / 4096 % 16 = 1) :
    dispatch h cpu = _chip8cpu_opcode_handler_1 cpu := by
  unfold dispatch
  rw [family_eq, hf]

theorem dispatch_3 (h : Host) (cpu : chip8cpu) (hf : cpu.opcode / 4096 % 16 = 3) :
    dispatch h cpu = _chip8cpu_opcode_handler_3 cpu := by
  unfold dispatch
  rw [family_eq, hf]

theorem dispatch_4 (h : Host) (cpu : chip8cpu) (hf : cpu.opcode / 4096 % 16 = 4) :
    dispatch h cpu = _chip8cpu_opcode_handler_4 cpu := by
  unfold dispatch
  rw [family_eq, hf]

theorem dispatch_5 (h : Host) (cpu : chip8cpu) (hf : cpu.opcode / 4096 % 16 = 5) :
    dispatch h cpu = _chip8cpu_opcode_handler_5 cpu := by
  unfold dispatch
  rw [family_eq, hf]

theorem dispatch_9 (h : Host) (cpu : chip8cpu) (hf : cpu.opcode / 4096 % 16 = 9) :
    dispatch h cpu = _chip8cpu_opcode_handler_9 cpu := by
  unfold dispatch
  rw [family_eq, hf]

theorem dispatch_A (h : Host) (cpu : chip8cpu) (hf : cpu.opcode / 4096 % 16 = 10) :
    dispatch h cpu = _chip8cpu_opcode_handler_A cpu := by
  unfold dispatch
  rw [family_eq, hf]

theorem dispatch_B (h : Host) (cpu : chip8cpu) (hf : cpu.opcode / 4096 % 16 = 11) :
    dispatch h cpu = _chip8cpu_opcode_handler_B cpu := by
  unfold dispatch
  rw [family_eq, hf]

theorem dispatch_C (h : Host) (cpu : chip8cpu) (hf : cpu.opcode / 4096 % 16 = 12) :
    dispatch h cpu = _chip8cpu_opcode_handler_C h cpu := by
  unfold dispatch
  rw [family_eq, hf]

theorem display_ok_of_gfx (cpu cpu' : chip8cpu) (hg : cpu'.gfx = cpu.gfx) (hok : display_ok cpu) :
    display_ok cpu' := by
  intro i hi
  rw [hg]
  exact hok i hi

theorem family_cases (w : Nat) :
    w / 4096 % 16 = 0 ∨ w / 4096 % 16 = 1 ∨ w / 4096 % 16 = 2 ∨ w / 4096 % 16 = 3 ∨
    w / 4096 % 16 = 4 ∨ w / 4096 % 16 = 5 ∨ w / 4096 % 16 = 6 ∨ w / 4096 % 16 = 7 ∨
    w / 4096 % 16 = 8 ∨ w / 4096 % 16 = 9 ∨ w / 4096 % 16 = 10 ∨ w / 4096 % 16 = 11 ∨
    w / 4096 % 16 = 12 ∨ w / 4096 % 16 = 13 ∨ w / 4096 % 16 = 14 ∨ w / 4096 % 16 = 15 := by
  omega

theorem dispatch_display (h : Host) (cpu cpu' : chip8cpu) (e : dispatch h cpu = some cpu')
    (hok : display_ok cpu) :
    display_ok cpu' ∧
    (cpu.opcode ≠ 0x00E0 → cpu.opcode / 4096 % 16 ≠ 13 → cpu'.gfx = cpu.gfx) := by
  have same : cpu'.gfx = cpu.gfx →
      display_ok cpu' ∧
      (cpu.opcode ≠ 0x00E0 → cpu.opcode / 4096 % 16 ≠ 13 → cpu'.gfx = cpu.gfx) :=
    fun hg => ⟨display_ok_of_gfx cpu cpu' hg hok, fun _ _ => hg⟩
  rcases family_cases cpu.opcode with k | k | k | k | k | k | k | k | k | k | k | k | k | k | k | k
  · rw [dispatch_0 h cpu k] at e
    obtain ⟨hz, hs⟩ := handler_0_gfx cpu cpu' e
    by_cases hE0 : cpu.opcode = 0x00E0
    · exact ⟨fun i _ => Or.inl (hz hE0 i), fun hne => absurd hE0 hne⟩
    · exact same (hs hE0)
  · rw [dispatch_1 h cpu k] at e
    exact same (handler_1_gfx cpu cpu' e)
  · rw [dispatch_2 h cpu k] at e
    exact same (handler_2_gfx cpu cpu' e)
  · rw [dispatch_3 h cpu k] at e
    exact same (handler_3_gfx cpu cpu' e)
  · rw [dispatch_4 h cpu k] at e
    exact same (handler_4_gfx cpu cpu' e)
  · rw [dispatch_5 h cpu k] at e
    exact same (handler_5_gfx cpu cpu' e)
  · rw [dispatch_6 h cpu k] at e
    exact same (handler_6_gfx cpu cpu' e)
  · rw [dispatch_7 h cpu k] at e
    exact same (handler_7_gfx cpu cpu' e)
  · rw [dispatch_8 h cpu k] at e
    exact same (handler_8_gfx cpu cpu' e)
  · rw [dispatch_9 h cpu k] at e
    exact same (handler_9_gfx cpu cpu' e)
  · rw [dispatch_A h cpu k] at e
    exact same (handler_A_gfx cpu cpu' e)
  · rw [dispatch_B h cpu k] at e
    exact same (handler_B_gfx cpu cpu' e)
  · rw [dispatch_C h cpu k] at e
    exact same (handler_C_gfx h cpu cpu' e)
  · rw [dispatch_D h cpu k] at e
    exact ⟨handler_D_display cpu cpu' e hok, fun _ hne => absurd k hne⟩
  · rw [dispatch_E h cpu k] at e
    exact same (handler_E_gfx h cpu cpu' e)
  · rw [dispatch_F h cpu k] at e
    exact same (handler_F_gfx h cpu cpu' e)

theorem handler_F_total (h : Host) (cpu : chip8cpu)
    (h33 : cpu.opcode % 256 = 0x33 → cpu.I + 2 ≤ 4095)
    (h55 : cpu.opcode % 256 = 0x55 ∨ cpu.opcode % 256 = 0x65 →
      cpu.I + cpu.opcode / 256 % 16 ≤ 4095)
    (h0A : cpu.opcode % 256 = 0x0A → cpu.keystate ≠ FnRef.null) :
    ∃ cpu', _chip8cpu_opcode_handler_F h cpu = some cpu' := by
  unfold _chip8cpu_opcode_handler_F
  dsimp only
  rw [and_FF, opX_eq]
  by_cases h1 : cpu.opcode % 256 = 0x07
  · rw [if_pos h1]
    exact ⟨_, rfl⟩
  rw [if_neg h1]
  by_cases h2 : cpu.opcode % 256 = 0x0A
  · rw [if_pos h2, if_neg (h0A h2)]
    split <;> exact ⟨_, rfl⟩
  rw [if_neg h2]
  by_cases h3 : cpu.opcode % 256 = 0x15
  · rw [if_pos h3]
    exact ⟨_, rfl⟩
  rw [if_neg h3]
  by_cases h4 : cpu.opcode % 256 = 0x18
  · rw [if_pos h4]
    exact ⟨_, rfl⟩
  rw [if_neg h4]
  by_cases h5 : cpu.opcode % 256 = 0x1E
  · rw [if_pos h5]
    exact ⟨_, rfl⟩
  rw [if_neg h5]
  by_cases h6 : cpu.opcode % 256 = 0x29
  · rw [if_pos h6]
    exact ⟨_, rfl⟩
  rw [if_neg h6]
  by_cases h7 : cpu.opcode % 256 = 0x33
  · rw [if_pos h7, if_pos (by have := h33 h7; omega)]
    exact ⟨_, rfl⟩
  rw [if_neg h7]
  by_cases h8 : cpu.opcode % 256 = 0x55
  · rw [if_pos h8, store_reg_loop cpu _ (by have := h55 (Or.inl h8); omega)]
    exact ⟨_, rfl⟩
  rw [if_neg h8]
  by_cases h9 : cpu.opcode % 256 = 0x65
  · rw [if_pos h9, load_reg_loop cpu _ (by have := h55 (Or.inr h9); omega)]
    exact ⟨_, rfl⟩
  rw [if_neg h9]
  exact ⟨_, rfl⟩

theorem dispatch_total (h : Host) (cpu : chip8cpu) (hb : in_bounds cpu cpu.opcode)
    (hs : slots_installed cpu cpu.opcode) :
    ∃ cpu', dispatch h cpu = some cpu' := by
  obtain ⟨b2, bD, b33, b55⟩ := hb
  obtain ⟨s0, sD, sE, sF⟩ := hs
  rcases family_cases cpu.opcode with k | k | k | k | k | k | k | k | k | k | k | k | k | k | k | k
  · rw [dispatch_0 h cpu k]
    unfold _chip8cpu_opcode_handler_0 call_draw
    dsimp only
    split_ifs with h1 hd
    · exact absurd hd (s0 h1)
    all_goals exact ⟨_, rfl⟩
  · rw [dispatch_1 h cpu k]
    exact ⟨_, rfl⟩
  · rw [dispatch_2 h cpu k]
    unfold _chip8cpu_opcode_handler_2
    rw [if_pos (by have := b2 k; omega)]
    exact ⟨_, rfl⟩
  · rw [dispatch_3 h cpu k]
    unfold _chip8cpu_opcode_handler_3
    split_ifs <;> exact ⟨_, rfl⟩
  · rw [dispatch_4 h cpu k]
    unfold _chip8cpu_opcode_handler_4
    split_ifs <;> exact ⟨_, rfl⟩
  · rw [dispatch_5 h cpu k]
    unfold _chip8cpu_opcode_handler_5
    split_ifs <;> exact ⟨_, rfl⟩
  · rw [dispatch_6 h cpu k]
    exact ⟨_, rfl⟩
  · rw [dispatch_7 h cpu k]
    exact ⟨_, rfl⟩
  · rw [dispatch_8 h cpu k]
    unfold _chip8cpu_opcode_handler_8
    split <;> exact ⟨_, rfl⟩
  · rw [dispatch_9 h cpu k]
    unfold _chip8cpu_opcode_handler_9
    split_ifs <;> exact ⟨_, rfl⟩
  · rw [dispatch_A h cpu k]
    exact ⟨_, rfl⟩
  · rw [dispatch_B h cpu k]
    exact ⟨_, rfl⟩
  · rw [dispatch_C h cpu k]
    exact ⟨_, rfl⟩
  · rw [dispatch_D h cpu k]
    obtain ⟨c, ec, -⟩ := handler_D_spec cpu (bD k) (sD k)
    exact ⟨c, ec⟩
  · rw [dispatch_E h cpu k]
    unfold _chip8cpu_opcode_handler_E call_keystate
    rw [and_FF]
    by_cases h1 : cpu.opcode % 256 = 0x9E
    · rw [if_pos h1, if_neg (sE k (Or.inl h1))]
      dsimp only
      split_ifs <;> exact ⟨_, rfl⟩
    rw [if_neg h1]
    by_cases h2 : cpu.opcode % 256 = 0xA1
    · rw [if_pos h2, if_neg (sE k (Or.inr h2))]
      dsimp only
      split_ifs <;> exact ⟨_, rfl⟩
    rw [if_neg h2]
    exact ⟨_, rfl⟩
  · rw [dispatch_F h cpu k]
    exact handler_F_total h cpu (b33 k) (b55 k) (sF k)
theorem exec_display (h : Host) (cpu cpu' : chip8cpu) (e : chip8cpu_exec_cycle h cpu = some cpu')
    (hok : display_ok cpu) : display_ok cpu' := by
  unfold chip8cpu_exec_cycle at e
  cases hf : fetch cpu with
  | none =>
    rw [hf] at e
    exact Option.noConfusion e
  | some w =>
    rw [hf] at e
    exact (dispatch_display h { cpu with opcode := w } cpu' e hok).1

theorem fetch_of_pc (cpu : chip8cpu) (hpc : cpu.pc ≤ 4094) : ∃ w, fetch cpu = some w := by
  unfold fetch word_at
  rw [if_pos (by omega)]
  exact ⟨_, rfl⟩

/-- Claim C20: every display cell is 0 or 1 in every reachable state. The predicate
`display_ok` (each of the 2048 display cells is 0 or 1) holds after `chip8cpu_new`. It is
preserved by `chip8cpu_load_code` for an image within bounds (which returns `C8E_OK`). It is
preserved by `chip8cpu_timer_tick`, which returns a state whenever the `beep` slot is filled
or the sound timer does not read 1, and never changes a display cell. It is preserved by
`chip8cpu_exec_cycle`, which returns a state whenever PC <= 4094, the fetched word is within
the bounds `in_bounds` (SP <= 15 for 2NNN, I + N <= 4096 for DXYN, I + 2 <= 4095 for FX33,
I + X <= 4095 for FX55/FX65) and the slot the word calls through is filled
(`slots_installed`); every fetched word other than 00E0 and DXYN leaves the whole display
buffer unchanged. A tick or a cycle that returns a state at all preserves `display_ok`.
And `display_ok` holds in every state reachable from `chip8cpu_new` by the host assigning
the function-pointer fields, loading code, ticks and cycles. -/
theorem C20_display_invariant :
    display_ok chip8cpu_new ∧
    (∀ (cpu : chip8cpu) (code : List Nat), code.length + 0x200 ≤ 4096 → display_ok cpu →
      ∃ cpu', chip8cpu_load_code cpu code (code.length : Int) = some (cpu', C8E_OK) ∧
        display_ok cpu' ∧ cpu'.gfx = cpu.gfx) ∧
    (∀ (h : Host) (cpu : chip8cpu), (call_sound_get h cpu = 1 → cpu.beep ≠ FnRef.null) →
      display_ok cpu →
      ∃ cpu', chip8cpu_timer_tick h cpu = some cpu' ∧ display_ok cpu' ∧ cpu'.gfx = cpu.gfx) ∧
    (∀ (h : Host) (cpu : chip8cpu), cpu.pc ≤ 4094 →
      ∃ w, fetch cpu = some w ∧
        (in_bounds cpu w → slots_installed cpu w → display_ok cpu →
          ∃ cpu', chip8cpu_exec_cycle h cpu = some cpu' ∧ display_ok cpu' ∧
            (w ≠ 0x00E0 → w / 4096 % 16 ≠ 0xD → cpu'.gfx = cpu.gfx))) ∧
    (∀ (h : Host) (cpu cpu' : chip8cpu), chip8cpu_timer_tick h cpu = some cpu' →
      cpu'.gfx = cpu.gfx) ∧
    (∀ (h : Host) (cpu cpu' : chip8cpu), chip8cpu_exec_cycle h cpu = some cpu' →
      display_ok cpu → display_ok cpu') ∧
    (∀ cpu, Reachable cpu → display_ok cpu) := by
  have hnew : display_ok chip8cpu_new := fun _ _ => Or.inl rfl
  refine ⟨hnew, ?_, ?_, ?_, tick_gfx, exec_display, ?_⟩
  · intro cpu code hN hok
    have e : chip8cpu_load_code cpu code (code.length : Int) =
        some ({ cpu with memory := fun a =>
          if 512 ≤ a ∧ a < 512 + code.length then code.getD (a - 512) 0 else cpu.memory a },
          C8E_OK) := by
      unfold chip8cpu_load_code
      rw [Int.toNat_ofNat, load_loop cpu code code.length (le_refl _) (by omega)]
      rfl
    exact ⟨_, e, hok, rfl⟩
  · intro h cpu hbeep hok
    obtain ⟨cpu', e⟩ := tick_total h cpu hbeep
    exact ⟨cpu', e, display_ok_of_gfx cpu cpu' (tick_gfx h cpu cpu' e) hok, tick_gfx h cpu cpu' e⟩
  · intro h cpu hpc
    obtain ⟨w, hf⟩ := fetch_of_pc cpu hpc
    refine ⟨w, hf, ?_⟩
    intro hb hs hok
    obtain ⟨cpu', e⟩ := dispatch_total h { cpu with opcode := w } hb hs
    have hd := dispatch_display h { cpu with opcode := w } cpu' e hok
    rw [← exec_of_fetch h cpu w hf] at e
    exact ⟨cpu', e, hd.1, hd.2⟩
  · intro cpu hr
    induction hr with
    | new => exact hnew
    | assign cpu draw keystate beep log delay_get delay_set sound_get sound_set rand _ ih =>
      exact fun i hi => ih i hi
    | load cpu cpu' code code_size r _ e ih =>
      exact display_ok_of_gfx cpu cpu' (load_code_gfx cpu cpu' code code_size r e) ih
    | tick h cpu cpu' _ e ih => exact display_ok_of_gfx cpu cpu' (tick_gfx h cpu cpu' e) ih
    | exec h cpu cpu' _ e ih => exact exec_display h cpu cpu' e ih

/-- Instance of C20: the machine `cpu_D005` (slots filled by the host, image `D005` loaded,
PC = 0x200, I = 0, empty display) is reachable and can draw; its word is within bounds and
its `draw` slot is filled, so its cycle returns a state; that state is reachable, its
display cell 0 has been lit, and its display cells are all 0 or 1. -/
theorem C20_display_invariant_witness :
    Reachable cpu_D005 ∧ cpu_D005.draw ≠ FnRef.null ∧
    ∃ cpu', chip8cpu_exec_cycle host0 cpu_D005 = some cpu' ∧ Reachable cpu' ∧
      cpu'.gfx 0 = 1 ∧ display_ok cpu' := by
  have hr : Reachable cpu_D005 :=
    Reachable.load _ cpu_D005 image_D005 2 C8E_OK
      (Reachable.assign chip8cpu_new (FnRef.host 1) (FnRef.host 2) (FnRef.host 3) FnRef.builtin
        FnRef.builtin FnRef.builtin FnRef.builtin FnRef.builtin FnRef.builtin Reachable.new)
      rfl
  obtain ⟨w, hf, hstep⟩ := C20_display_invariant.2.2.2.1 host0 cpu_D005 (by decide)
  have hw : fetch cpu_D005 = some 0xD005 := by decide
  rw [hw] at hf
  cases hf
  have hb : in_bounds cpu_D005 0xD005 :=
    ⟨fun _ => by decide, fun _ => by decide, fun _ _ => by decide, fun k => absurd k (by decide)⟩
  have hs : slots_installed cpu_D005 0xD005 :=
    ⟨fun _ => by decide, fun _ => by decide, fun _ _ => by decide, fun _ _ => by decide⟩
  obtain ⟨cpu', e, hok, -⟩ := hstep hb hs (fun _ _ => Or.inl rfl)
  obtain ⟨c, ec, -, g1, -⟩ :=
    exec_draw host0 cpu_D005 0 0 5 (by decide) (by decide) (by decide) (by decide) (by decide)
      (by decide)
  have hc : cpu' = c := Option.some.inj (e.symm.trans ec)
  have g : cpu'.gfx 0 = 1 := by
    rw [hc]
    exact g1 0 0 (by decide) (by decide)
  exact ⟨hr, by decide, cpu', e, Reachable.exec host0 cpu_D005 cpu' hr e, g, hok⟩

end Chip8
